import Mathlib

/-!
Verification of the tracking + clustering core of the ImageJ-App backend
(`app/services/tracking_services.py`, `app/services/clustering_services.py`).

The embedding models:
- a `CellFeature` database row as a record (nullable SQL columns as `Option`);
- the external numeric routines `np.sqrt` and `np.arctan2` as opaque function
  parameters `sq : ℚ → ℚ` and `at2 : ℚ → ℚ → ℚ` (centroids and distances are
  rationals);
- `scipy.optimize.linear_sum_assignment` as an opaque `Solver` parameter
  returning the list of `(curr_index, prev_index)` pairs;
- sklearn GMM fitting, hmmlearn HMM fitting and the external GNN inference as
  opaque environment records;
- database mutation plus the single `db.session.commit()` per stage as explicit
  state passing on a `List CellFeature`.

`centroid_row`/`centroid_col` are written together by feature extraction
(`regionprops` in `feature_extraction_services.py`), so they are modelled as a
single optional pair `centroid : Option (ℚ × ℚ)` with `.1` the row and `.2`
the column; the source's nullability guards (which test one of the two
columns) become the guard on this pair.
-/

/-- One row of the `cell_features` table, restricted to the columns the
tracking/clustering core reads or writes.  `area` and `mean_intensity` stand
in for the immutable extracted feature columns used by clustering. -/
structure CellFeature where
  id : Nat
  frame_num : Int
  cell_id : Int
  centroid : Option (ℚ × ℚ)
  area : Option ℚ
  mean_intensity : Option ℚ
  delta_x : Option ℚ
  delta_y : Option ℚ
  displacement : Option ℚ
  speed : Option ℚ
  turning : Option ℚ
  track_id : Option Int
  gmm_state : Option Int
  hmm_state : Option Int
deriving Repr, DecidableEq

/-- `(frame_num, cell_id)` — the key under which the services index rows in
their per-frame dictionaries. -/
def keyOf (f : CellFeature) : Int × Int := (f.frame_num, f.cell_id)

/-! ### Generic list helpers mirroring the Python container operations -/

/-- In-place update of the element at index `i` (Python `list[i] = ...`). -/
def modifyIdx {α : Type} : List α → Nat → (α → α) → List α
  | [], _, _ => []
  | a :: l, 0, g => g a :: l
  | a :: l, i + 1, g => a :: modifyIdx l i g

/-- Distinct values of a list keeping first occurrences — the key order of a
Python dict built by insertion. -/
def firstDedup {α : Type} [DecidableEq α] : List α → List α
  | [] => []
  | x :: xs => x :: (firstDedup xs).filter (fun y => y ≠ x)

@[simp] theorem modifyIdx_nil {α : Type} (i : Nat) (g : α → α) :
    modifyIdx [] i g = [] := rfl

theorem modifyIdx_length {α : Type} (l : List α) (i : Nat) (g : α → α) :
    (modifyIdx l i g).length = l.length := by
  induction l generalizing i with
  | nil => rfl
  | cons a l ih =>
    cases i with
    | zero => rfl
    | succ i => simp [modifyIdx, ih]

theorem modifyIdx_get?_ne {α : Type} (l : List α) (i j : Nat) (g : α → α)
    (h : j ≠ i) : (modifyIdx l i g).get? j = l.get? j := by
  induction l generalizing i j with
  | nil => rfl
  | cons a l ih =>
    cases i with
    | zero =>
      cases j with
      | zero => exact absurd rfl h
      | succ j => rfl
    | succ i =>
      cases j with
      | zero => rfl
      | succ j =>
        simp only [modifyIdx, List.get?]
        exact ih i j (fun hji => h (by omega))

theorem modifyIdx_get?_eq {α : Type} (l : List α) (i : Nat) (g : α → α) :
    (modifyIdx l i g).get? i = (l.get? i).map g := by
  induction l generalizing i with
  | nil => rfl
  | cons a l ih =>
    cases i with
    | zero => rfl
    | succ i => simpa [modifyIdx] using ih i

theorem modifyIdx_mem {α : Type} {g : α → α} {a : α} :
    ∀ (l : List α) (i : Nat), a ∈ modifyIdx l i g → a ∈ l ∨ ∃ b ∈ l, a = g b
  | [], _, h => by simp at h
  | x :: l, 0, h => by
    rcases List.mem_cons.mp h with rfl | h
    · exact Or.inr ⟨x, List.mem_cons_self _ _, rfl⟩
    · exact Or.inl (List.mem_cons_of_mem _ h)
  | x :: l, i + 1, h => by
    rcases List.mem_cons.mp h with rfl | h
    · exact Or.inl (List.mem_cons_self _ _)
    · rcases modifyIdx_mem l i h with h | ⟨b, hb, rfl⟩
      · exact Or.inl (List.mem_cons_of_mem _ h)
      · exact Or.inr ⟨b, List.mem_cons_of_mem _ hb, rfl⟩

theorem mem_firstDedup {α : Type} [DecidableEq α] {a : α} {l : List α} :
    a ∈ firstDedup l ↔ a ∈ l := by
  induction l with
  | nil => simp [firstDedup]
  | cons x xs ih =>
    by_cases hax : a = x
    · subst hax; simp [firstDedup]
    · simp only [firstDedup, List.mem_cons, List.mem_filter]
      constructor
      · rintro (rfl | ⟨h, _⟩)
        · exact Or.inl rfl
        · exact Or.inr (ih.mp h)
      · rintro (rfl | h)
        · exact Or.inl rfl
        · exact Or.inr ⟨ih.mpr h, by simpa using hax⟩

theorem nodup_firstDedup {α : Type} [DecidableEq α] (l : List α) :
    (firstDedup l).Nodup := by
  induction l with
  | nil => simp [firstDedup]
  | cons x xs ih =>
    refine List.Nodup.cons ?_ (List.Nodup.filter _ ih)
    intro hx
    have := (List.mem_filter.mp hx).2
    simp at this

theorem firstDedup_ne_nil_of_mem {α : Type} [DecidableEq α] {a : α}
    {l : List α} (h : a ∈ l) : firstDedup l ≠ [] := by
  intro hnil
  have := mem_firstDedup.mpr h
  rw [hnil] at this
  simp at this

/-! ### Last-occurrence lookup and update, mirroring the frame dictionaries

`frames[f.frame_num][f.cell_id] = f` inserted in query order keeps, for each
`(frame_num, cell_id)` key, the **last** row inserted; the mutation of a dict
entry mutates exactly that row.  `findRep`/`updateRep` give the corresponding
last-occurrence lookup and update on the row list. -/

/-- The dict entry for key `(fr, cid)`: the last matching row. -/
def findRep (fr cid : Int) : List CellFeature → Option CellFeature
  | [] => none
  | c :: rest =>
    match findRep fr cid rest with
    | some r => some r
    | none => if keyOf c = (fr, cid) then some c else none

/-- Apply `g` to the dict entry for key `(fr, cid)` (the last matching row). -/
def updateRep (g : CellFeature → CellFeature) (fr cid : Int) :
    List CellFeature → List CellFeature
  | [] => []
  | c :: rest =>
    if rest.any (fun f => decide (keyOf f = (fr, cid))) then
      c :: updateRep g fr cid rest
    else if keyOf c = (fr, cid) then g c :: rest
    else c :: rest

theorem findRep_isSome_iff {fr cid : Int} {st : List CellFeature} :
    (findRep fr cid st).isSome ↔ ∃ f ∈ st, keyOf f = (fr, cid) := by
  induction st with
  | nil => simp [findRep]
  | cons c rest ih =>
    simp only [findRep]
    cases hr : findRep fr cid rest with
    | some r =>
      simp only [Option.isSome_some, true_iff]
      have := ih.mp (by rw [hr]; rfl)
      rcases this with ⟨f, hf, hk⟩
      exact ⟨f, List.mem_cons_of_mem _ hf, hk⟩
    | none =>
      by_cases hc : keyOf c = (fr, cid)
      · rw [if_pos hc]
        simp only [Option.isSome_some, true_iff]
        exact ⟨c, List.mem_cons_self _ _, hc⟩
      · simp only [if_neg hc]
        constructor
        · intro h; simp at h
        · rintro ⟨f, hf, hk⟩
          rcases List.mem_cons.mp hf with rfl | hf
          · exact absurd hk hc
          · have : (findRep fr cid rest).isSome := ih.mpr ⟨f, hf, hk⟩
            rw [hr] at this; simp at this

theorem any_key_iff_findRep_isSome {fr cid : Int} {st : List CellFeature} :
    (st.any (fun f => decide (keyOf f = (fr, cid))) = true) ↔
      (findRep fr cid st).isSome := by
  rw [findRep_isSome_iff, List.any_eq_true]
  constructor
  · rintro ⟨f, hf, hk⟩
    exact ⟨f, hf, of_decide_eq_true hk⟩
  · rintro ⟨f, hf, hk⟩
    exact ⟨f, hf, decide_eq_true hk⟩

theorem findRep_updateRep_self {g : CellFeature → CellFeature}
    (hg : ∀ x, keyOf (g x) = keyOf x) (fr cid : Int) (st : List CellFeature) :
    findRep fr cid (updateRep g fr cid st) = (findRep fr cid st).map g := by
  induction st with
  | nil => rfl
  | cons c rest ih =>
    simp only [updateRep]
    by_cases hany : rest.any (fun f => decide (keyOf f = (fr, cid))) = true
    · rw [if_pos hany]
      have hsome : (findRep fr cid rest).isSome :=
        any_key_iff_findRep_isSome.mp hany
      rcases Option.isSome_iff_exists.mp hsome with ⟨r, hr⟩
      have hsome2 : (findRep fr cid (updateRep g fr cid rest)).isSome := by
        rw [ih, hr]; rfl
      rcases Option.isSome_iff_exists.mp hsome2 with ⟨r2, hr2⟩
      simp only [findRep, hr2, hr]
      rw [ih, hr] at hr2
      simpa using hr2.symm
    · rw [if_neg hany]
      have hnone : findRep fr cid rest = none := by
        cases h : findRep fr cid rest with
        | none => rfl
        | some r =>
          exact absurd (any_key_iff_findRep_isSome.mpr (by rw [h]; rfl)) hany
      by_cases hc : keyOf c = (fr, cid)
      · rw [if_pos hc]
        simp only [findRep, hnone, hc, hg c, if_pos rfl]
        rfl
      · rw [if_neg hc]
        simp [findRep, hnone, hc]

theorem findRep_updateRep_other {g : CellFeature → CellFeature}
    (hg : ∀ x, keyOf (g x) = keyOf x) {fr cid fr' cid' : Int}
    (hne : (fr', cid') ≠ (fr, cid)) (st : List CellFeature) :
    findRep fr' cid' (updateRep g fr cid st) = findRep fr' cid' st := by
  induction st with
  | nil => rfl
  | cons c rest ih =>
    simp only [updateRep]
    by_cases hany : rest.any (fun f => decide (keyOf f = (fr, cid))) = true
    · rw [if_pos hany]
      simp only [findRep, ih]
    · rw [if_neg hany]
      by_cases hc : keyOf c = (fr, cid)
      · rw [if_pos hc]
        have hcc : keyOf c ≠ (fr', cid') := fun h => hne (h.symm.trans hc)
        simp only [findRep, hg c]
        cases findRep fr' cid' rest with
        | some r => rfl
        | none => rw [if_neg hcc, if_neg hcc]
      · rw [if_neg hc]

theorem updateRep_mem {g : CellFeature → CellFeature} {fr cid : Int}
    {st : List CellFeature} {a : CellFeature}
    (h : a ∈ updateRep g fr cid st) : a ∈ st ∨ ∃ b ∈ st, a = g b := by
  induction st with
  | nil => simp [updateRep] at h
  | cons c rest ih =>
    simp only [updateRep] at h
    by_cases hany : rest.any (fun f => decide (keyOf f = (fr, cid))) = true
    · rw [if_pos hany] at h
      rcases List.mem_cons.mp h with rfl | h
      · exact Or.inl (List.mem_cons_self _ _)
      · rcases ih h with h | ⟨b, hb, rfl⟩
        · exact Or.inl (List.mem_cons_of_mem _ h)
        · exact Or.inr ⟨b, List.mem_cons_of_mem _ hb, rfl⟩
    · rw [if_neg hany] at h
      by_cases hc : keyOf c = (fr, cid)
      · rw [if_pos hc] at h
        rcases List.mem_cons.mp h with rfl | h
        · exact Or.inr ⟨c, List.mem_cons_self _ _, rfl⟩
        · exact Or.inl (List.mem_cons_of_mem _ h)
      · rw [if_neg hc] at h
        exact Or.inl h

theorem map_keyOf_updateRep {g : CellFeature → CellFeature}
    (hg : ∀ x, keyOf (g x) = keyOf x) (fr cid : Int) (st : List CellFeature) :
    (updateRep g fr cid st).map keyOf = st.map keyOf := by
  induction st with
  | nil => rfl
  | cons c rest ih =>
    simp only [updateRep]
    by_cases hany : rest.any (fun f => decide (keyOf f = (fr, cid))) = true
    · rw [if_pos hany]; simp [ih]
    · rw [if_neg hany]
      by_cases hc : keyOf c = (fr, cid)
      · rw [if_pos hc]; simp [hg c]
      · rw [if_neg hc]

/-! ### A stable sort mirroring Python `sorted` / `list.sort`

Core's `mergeSort` does not reduce in the kernel, so the embedding uses a
stable insertion sort; only permutation and (for concrete inputs) evaluation
are needed. -/

/-- Insert `x` after every element `y` with `le y x` — the stable position. -/
def insertLe {α : Type} (le : α → α → Bool) (x : α) : List α → List α
  | [] => [x]
  | y :: ys => if le y x then y :: insertLe le x ys else x :: y :: ys

/-- Stable sort by the boolean relation `le` (Python's stable `sorted`). -/
def pySort {α : Type} (le : α → α → Bool) (l : List α) : List α :=
  l.foldl (fun acc x => insertLe le x acc) []

theorem insertLe_perm {α : Type} (le : α → α → Bool) (x : α) (l : List α) :
    (insertLe le x l).Perm (x :: l) := by
  induction l with
  | nil => exact List.Perm.refl _
  | cons y ys ih =>
    simp only [insertLe]
    by_cases h : le y x = true
    · rw [if_pos h]
      exact (ih.cons y).trans (List.Perm.swap x y ys)
    · rw [if_neg h]

theorem pySort_perm {α : Type} (le : α → α → Bool) (l : List α) :
    (pySort le l).Perm l := by
  have key : ∀ (l acc : List α),
      (l.foldl (fun acc x => insertLe le x acc) acc).Perm (l ++ acc) := by
    intro l
    induction l with
    | nil => intro acc; exact List.Perm.refl _
    | cons x xs ih =>
      intro acc
      have h1 : ((x :: xs).foldl (fun acc x => insertLe le x acc) acc)
          = xs.foldl (fun acc x => insertLe le x acc) (insertLe le x acc) := rfl
      rw [h1]
      have h2 := ih (insertLe le x acc)
      have h3 : (xs ++ insertLe le x acc).Perm (xs ++ (x :: acc)) :=
        List.Perm.append_left xs (insertLe_perm le x acc)
      have h4 : (xs ++ (x :: acc)).Perm ((x :: xs) ++ acc) := List.perm_middle
      exact (h2.trans h3).trans h4
  simpa [pySort] using key l []

theorem pySort_nodup {α : Type} (le : α → α → Bool) {l : List α}
    (h : l.Nodup) : (pySort le l).Nodup := (pySort_perm le l).nodup_iff.mpr h

/-! ### Frame grouping (`frames` dicts in the services) -/

/-- `sorted(frames.keys())`: the distinct frame numbers, ascending. -/
def frameNums (st : List CellFeature) : List Int :=
  pySort (fun a b => decide (a ≤ b)) (firstDedup (st.map (fun f => f.frame_num)))

/-- The keys of the per-frame dict `frames[fr]`: distinct `cell_id`s of the
rows of frame `fr`, in query (insertion) order. -/
def frameKeys (st : List CellFeature) (fr : Int) : List Int :=
  firstDedup ((st.filter (fun f => decide (f.frame_num = fr))).map
    (fun f => f.cell_id))

theorem frameNums_nodup (st : List CellFeature) : (frameNums st).Nodup :=
  pySort_nodup _ (nodup_firstDedup _)

theorem frameKeys_nodup (st : List CellFeature) (fr : Int) :
    (frameKeys st fr).Nodup := nodup_firstDedup _

theorem mem_frameKeys {st : List CellFeature} {fr cid : Int} :
    cid ∈ frameKeys st fr ↔ ∃ f ∈ st, keyOf f = (fr, cid) := by
  unfold frameKeys
  rw [mem_firstDedup, List.mem_map]
  constructor
  · rintro ⟨f, hf, rfl⟩
    have := List.mem_filter.mp hf
    exact ⟨f, this.1, by simp [keyOf, of_decide_eq_true this.2]⟩
  · rintro ⟨f, hf, hk⟩
    have h1 : f.frame_num = fr := congrArg Prod.fst hk
    have h2 : f.cell_id = cid := congrArg Prod.snd hk
    exact ⟨f, List.mem_filter.mpr ⟨hf, decide_eq_true h1⟩, h2⟩

theorem mem_frameKeys_isSome {st : List CellFeature} {fr cid : Int} :
    cid ∈ frameKeys st fr ↔ (findRep fr cid st).isSome := by
  rw [mem_frameKeys, findRep_isSome_iff]

/-- `frameKeys` is determined by the `(frame_num, cell_id)` skeleton. -/
theorem frameKeys_eq_of_map_keyOf {st st' : List CellFeature}
    (h : st.map keyOf = st'.map keyOf) (fr : Int) :
    frameKeys st fr = frameKeys st' fr := by
  unfold frameKeys
  congr 1
  induction st generalizing st' with
  | nil =>
    cases st' with
    | nil => rfl
    | cons c t => simp at h
  | cons c t ih =>
    cases st' with
    | nil => simp at h
    | cons c' t' =>
      simp only [List.map_cons, List.cons.injEq] at h
      have h1 : c.frame_num = c'.frame_num := congrArg Prod.fst h.1
      have h2 : c.cell_id = c'.cell_id := congrArg Prod.snd h.1
      simp only [List.filter_cons]
      rw [h1]
      by_cases hfr : c'.frame_num = fr
      · rw [if_pos (by simpa using hfr), if_pos (by simpa using hfr)]
        simp only [List.map_cons, h2, ih h.2]
      · rw [if_neg (by simpa using hfr), if_neg (by simpa using hfr)]
        exact ih h.2

/-! ### Tracking result dictionaries

Each constructor mirrors one literal result dict returned by
`tracking_services.py`; `hasErrorKey` records whether that dict carries the
`"error"` key (the structured precondition-error form). -/

inductive TrackResult where
  /-- run_tracking / mask-label / GNN empty-store result:
  `{"error": "No features found. Make sure masks are available."}` -/
  | errNoFeatures
  /-- `_process_gnn_results` empty-store result:
  `{"error": "No features found in database"}` -/
  | errNoFeaturesDb
  /-- run_tracking short-sequence result:
  `{"message": "Need at least 2 frames for tracking", "tracks": 0}` -/
  | msgNeedTwoFrames
  /-- mask-label failure:
  `{"error": "Masks don't contain track IDs. ...", "message": ..., "method": "none"}` -/
  | errNoTrackIds
  /-- `{"message": "Tracking completed", ...}` -/
  | completed (total_tracks total_cells frames_processed : Nat)
  /-- `{"message": "Tracking completed using mask labels", "method": "mask_labels", ...}` -/
  | maskCompleted (total_tracks total_cells frames_processed : Nat)
  /-- `{"message": "GNN Tracking completed", "method": "gnn", ...}` -/
  | gnnCompleted (total_tracks total_cells frames_processed : Nat)
deriving Repr, DecidableEq

/-- Whether the result dict contains the `"error"` key. -/
def hasErrorKey : TrackResult → Bool
  | .errNoFeatures => true
  | .errNoFeaturesDb => true
  | .errNoTrackIds => true
  | .msgNeedTwoFrames => false
  | .completed _ _ _ => false
  | .maskCompleted _ _ _ => false
  | .gnnCompleted _ _ _ => false

/-- `SELECT DISTINCT track_id` row count (SQL counts the NULL group too). -/
def distinctTrackCount (st : List CellFeature) : Nat :=
  (firstDedup (st.map (fun f => f.track_id))).length

/-! ### Motion-feature writes (identical block in all three trackers) -/

/-- The motion block guarded by the centroid nullability test:
`delta_x = curr.col − prev.col`, `delta_y = curr.row − prev.row`,
`displacement = speed = sqrt(delta_x² + delta_y²)`, and `turning` only when
the previous row already has a motion vector.  In `run_tracking` the guard is
implied by the finite assignment cost (which requires both centroids), so the
same definition serves all three paths. -/
def motionFields (sq : ℚ → ℚ) (at2 : ℚ → ℚ → ℚ) (p c : CellFeature) :
    CellFeature :=
  match c.centroid, p.centroid with
  | some cc, some pc =>
    let dx := cc.2 - pc.2
    let dy := cc.1 - pc.1
    let disp := sq (dx ^ 2 + dy ^ 2)
    let base := { c with delta_x := some dx, delta_y := some dy,
                         displacement := some disp, speed := some disp }
    match p.delta_x, p.delta_y with
    | some pdx, some pdy =>
      { base with turning := some (at2 dy dx - at2 pdy pdx) }
    | _, _ => base
  | _, _ => c

/-- `curr_cell.track_id = prev_cell.track_id` followed by the motion block —
the accepted-link update of `run_tracking` and of the GNN matcher. -/
def linkCells (sq : ℚ → ℚ) (at2 : ℚ → ℚ → ℚ) (p c : CellFeature) :
    CellFeature :=
  motionFields sq at2 p { c with track_id := p.track_id }

/-- `cell.track_id = t`. -/
def setTrack (t : Int) (c : CellFeature) : CellFeature :=
  { c with track_id := some t }

theorem keyOf_motionFields (sq : ℚ → ℚ) (at2 : ℚ → ℚ → ℚ)
    (p c : CellFeature) : keyOf (motionFields sq at2 p c) = keyOf c := by
  unfold motionFields
  cases c.centroid with
  | none => rfl
  | some cc =>
    cases p.centroid with
    | none => rfl
    | some pc =>
      cases p.delta_x with
      | none => rfl
      | some pdx => cases p.delta_y with
        | none => rfl
        | some pdy => rfl

theorem keyOf_linkCells (sq : ℚ → ℚ) (at2 : ℚ → ℚ → ℚ) (p c : CellFeature) :
    keyOf (linkCells sq at2 p c) = keyOf c := by
  unfold linkCells
  rw [keyOf_motionFields]
  rfl

theorem keyOf_setTrack (t : Int) (c : CellFeature) :
    keyOf (setTrack t c) = keyOf c := rfl

/-! ### `run_tracking` — the nearest-neighbor FrameLinker -/

/-- One cost-matrix entry: `+infinity` (modelled `none`) when a centroid is
missing or the euclidean distance exceeds `max_distance`, else the distance. -/
def pairCost (sq : ℚ → ℚ) (maxd : ℚ) (c p : CellFeature) : Option ℚ :=
  match c.centroid, p.centroid with
  | some cc, some pc =>
    let d := sq ((cc.1 - pc.1) ^ 2 + (cc.2 - pc.2) ^ 2)
    if d ≤ maxd then some d else none
  | _, _ => none

/-- The cost matrix as a function of (curr index, prev index). -/
def matrixCost (sq : ℚ → ℚ) (maxd : ℚ) (prev curr : List CellFeature)
    (ci pi : Nat) : Option ℚ :=
  match curr.get? ci, prev.get? pi with
  | some c, some p => pairCost sq maxd c p
  | _, _ => none

/-- `scipy.optimize.linear_sum_assignment`, abstracted: from the cost matrix
and its dimensions produce the assignment as `(curr index, prev index)`
pairs (`zip(row_ind, col_ind)`). -/
def Solver : Type :=
  (Nat → Nat → Option ℚ) → Nat → Nat → List (Nat × Nat)

/-- The loop over solver pairs: a pair with finite cost links
`curr[ci]` to `prev[pi]` (track id + motion block) and records `ci` in
`assigned_curr`; an infinite-cost pair is skipped. -/
def acceptPairs (sq : ℚ → ℚ) (at2 : ℚ → ℚ → ℚ) (maxd : ℚ)
    (prev : List CellFeature) :
    List (Nat × Nat) → List CellFeature × List Nat →
      List CellFeature × List Nat
  | [], st => st
  | pr :: rest, (cur, asg) =>
    match cur.get? pr.1, prev.get? pr.2 with
    | some c, some p =>
      match pairCost sq maxd c p with
      | some _ =>
        acceptPairs sq at2 maxd prev rest
          (modifyIdx cur pr.1 (fun x => linkCells sq at2 p x), asg ++ [pr.1])
      | none => acceptPairs sq at2 maxd prev rest (cur, asg)
    | _, _ => acceptPairs sq at2 maxd prev rest (cur, asg)

/-- `for ci, curr_cell in enumerate(curr_cells): if ci not in assigned_curr:`
give a fresh track id and advance the counter. -/
def assignNewIdsAux : List CellFeature → List Nat → Nat → Int →
    List CellFeature × Int
  | [], _, _, next => ([], next)
  | c :: rest, asg, i, next =>
    if i ∈ asg then
      let r := assignNewIdsAux rest asg (i + 1) next
      (c :: r.1, r.2)
    else
      let r := assignNewIdsAux rest asg (i + 1) (next + 1)
      (setTrack next c :: r.1, r.2)

/-- One `Step(prev_frame, curr_frame)` of the FrameLinker: process the solver
pairs, then give brand-new track ids to unassigned current-frame cells. -/
def linkStep (sq : ℚ → ℚ) (at2 : ℚ → ℚ → ℚ) (maxd : ℚ)
    (prev curr : List CellFeature) (pairs : List (Nat × Nat)) (next : Int) :
    List CellFeature × Int :=
  let ap := acceptPairs sq at2 maxd prev pairs (curr, [])
  assignNewIdsAux ap.1 ap.2 0 next

/-- First frame of `run_tracking`: fresh ids in query order. -/
def initFirstFrame : List CellFeature → Int → List CellFeature × Int
  | [], next => ([], next)
  | c :: rest, next =>
    let r := initFirstFrame rest (next + 1)
    (setTrack next c :: r.1, r.2)

/-- `for i in range(1, len(frame_nums))`: link consecutive frame pairs,
threading the updated previous frame and the track-id counter.  The guard on
the matrix shape mirrors `if cost_matrix.shape[0] > 0 and shape[1] > 0`. -/
def trackLoop (sol : Solver) (sq : ℚ → ℚ) (at2 : ℚ → ℚ → ℚ) (maxd : ℚ) :
    List CellFeature → List (List CellFeature) → Int → List (List CellFeature)
  | prev, [], _ => [prev]
  | prev, curr :: rest, next =>
    if 0 < curr.length ∧ 0 < prev.length then
      let pairs := sol (matrixCost sq maxd prev curr) curr.length prev.length
      let r := linkStep sq at2 maxd prev curr pairs next
      prev :: trackLoop sol sq at2 maxd r.1 rest r.2
    else prev :: trackLoop sol sq at2 maxd curr rest next

/-- `run_tracking(max_distance)` of `tracking_services.py`.

`features0` is the current content of the feature store (in query order);
`extracted` is the store content after the auto-extraction recovery path
(`extract_features_batch`) that runs when the store is empty.  Returns the
result dict and the committed store. -/
def run_tracking (sol : Solver) (sq : ℚ → ℚ) (at2 : ℚ → ℚ → ℚ) (maxd : ℚ)
    (features0 extracted : List CellFeature) :
    TrackResult × List CellFeature :=
  let features := if features0.isEmpty then extracted else features0
  if features.isEmpty then (.errNoFeatures, features)
  else
    let fnums := frameNums features
    if fnums.length < 2 then (.msgNeedTwoFrames, features)
    else
      let framesL := fnums.map
        (fun n => features.filter (fun f => decide (f.frame_num = n)))
      match framesL with
      | [] => (.errNoFeatures, features)
      | first :: rest =>
        let ini := initFirstFrame first 1
        let fin := (trackLoop sol sq at2 maxd ini.1 rest ini.2).flatten
        (.completed (distinctTrackCount fin) features.length fnums.length, fin)

/-! ### `run_tracking_from_mask_labels` — the LabelIdentityTracker -/

/-- `defaultdict(list)` count: how many rows carry this `cell_id`
(`len(cell_id_frames[cid])`). -/
def cellIdOccurrences (features : List CellFeature) (cid : Int) : Nat :=
  (features.filter (fun f => decide (f.cell_id = cid))).length

/-- `multi_frame_ids`: the cell ids whose frame list has length > 1. -/
def multi_frame_ids (features : List CellFeature) : List Int :=
  (firstDedup (features.map (fun f => f.cell_id))).filter
    (fun cid => decide (1 < cellIdOccurrences features cid))

/-- `f.track_id = f.cell_id` for every row. -/
def maskSt0 (features : List CellFeature) : List CellFeature :=
  features.map (fun f => { f with track_id := some f.cell_id })

/-- One current-frame dict key of the mask-label motion loop: if the same
`cell_id` exists in the previous frame's dict, apply the motion block to the
current dict entry using the previous dict entry. -/
def maskKeyStep (sq : ℚ → ℚ) (at2 : ℚ → ℚ → ℚ) (pf cf : Int)
    (pks : List Int) (cid : Int) (st : List CellFeature) :
    List CellFeature :=
  if cid ∈ pks then
    match findRep pf cid st with
    | some p => updateRep (motionFields sq at2 p) cf cid st
    | none => st
  else st

/-- Inner loop of one mask-label frame pair, over the current frame's dict
keys. -/
def maskKeysFold (sq : ℚ → ℚ) (at2 : ℚ → ℚ → ℚ) (pf cf : Int)
    (pks : List Int) : List Int → List CellFeature → List CellFeature
  | [], st => st
  | cid :: ks, st =>
    maskKeysFold sq at2 pf cf pks ks (maskKeyStep sq at2 pf cf pks cid st)

/-- One consecutive frame pair `(prev_frame, curr_frame)` of the mask-label
motion loop. -/
def maskStepFrames (sq : ℚ → ℚ) (at2 : ℚ → ℚ → ℚ) (st : List CellFeature)
    (pf cf : Int) : List CellFeature :=
  maskKeysFold sq at2 pf cf (frameKeys st pf) (frameKeys st cf) st

/-- `for i in range(1, len(frame_nums))` over the sorted frame numbers. -/
def maskLoop (sq : ℚ → ℚ) (at2 : ℚ → ℚ → ℚ) :
    List CellFeature → List Int → List CellFeature
  | st, pf :: cf :: rest =>
    maskLoop sq at2 (maskStepFrames sq at2 st pf cf) (cf :: rest)
  | st, _ => st

/-- `run_tracking_from_mask_labels()` of `tracking_services.py`. -/
def run_tracking_from_mask_labels (sq : ℚ → ℚ) (at2 : ℚ → ℚ → ℚ)
    (features0 extracted : List CellFeature) :
    TrackResult × List CellFeature :=
  let features := if features0.isEmpty then extracted else features0
  if features.isEmpty then (.errNoFeatures, features)
  else if (multi_frame_ids features).isEmpty then (.errNoTrackIds, features)
  else
    let fin := maskLoop sq at2 (maskSt0 features) (frameNums features)
    (.maskCompleted (distinctTrackCount fin) features.length
       (frameNums features).length, fin)

/-! ### `run_gnn_tracking` — the GraphAssociationTracker -/

/-- Sort edges by probability, highest first (Python's stable descending
sort). -/
def sortEdges (es : List (Int × Int × ℚ)) : List (Int × Int × ℚ) :=
  pySort (fun a b => decide (b.2.2 ≤ a.2.2)) es

/-- Greedy confidence-ordered matching of one frame pair: accept an edge only
if both endpoints exist in the frame dicts and are still unmatched; assign
`prev.track_id` and the motion block to the current cell. -/
def gnnAccept (sq : ℚ → ℚ) (at2 : ℚ → ℚ → ℚ) (pf cf : Int)
    (pks cks : List Int) : List (Int × Int × ℚ) →
    List CellFeature × List Int × List Int →
    List CellFeature × List Int × List Int
  | [], acc => acc
  | e :: rest, (st, ap, ac) =>
    if e.1 ∈ pks ∧ e.2.1 ∈ cks ∧ e.1 ∉ ap ∧ e.2.1 ∉ ac then
      match findRep pf e.1 st with
      | some p =>
        gnnAccept sq at2 pf cf pks cks rest
          (updateRep (linkCells sq at2 p) cf e.2.1 st, e.1 :: ap, e.2.1 :: ac)
      | none => gnnAccept sq at2 pf cf pks cks rest (st, ap, ac)
    else gnnAccept sq at2 pf cf pks cks rest (st, ap, ac)

/-- New track ids for the current-frame dict keys not matched by the greedy
pass, in dict key order. -/
def assignNewByKeys (cf : Int) (keys skip : List Int) :
    List CellFeature → Int → List CellFeature × Int
  | st, next =>
    keys.foldl
      (fun acc cid =>
        if cid ∈ skip then acc
        else (updateRep (setTrack acc.2) cf cid acc.1, acc.2 + 1))
      (st, next)

/-- One frame pair of `_process_gnn_results`: greedy matching over the
high-confidence edges, then new ids for unmatched current cells. -/
def gnnPairStep (sq : ℚ → ℚ) (at2 : ℚ → ℚ → ℚ)
    (edges : List (Int × Int × ℚ)) (pf cf : Int) (st : List CellFeature)
    (next : Int) : List CellFeature × Int :=
  let pks := frameKeys st pf
  let cks := frameKeys st cf
  let r := gnnAccept sq at2 pf cf pks cks (sortEdges edges) (st, [], [])
  assignNewByKeys cf cks r.2.2 r.1 next

/-- The frame-pair loop of `_process_gnn_results`. -/
def gnnLoop (sq : ℚ → ℚ) (at2 : ℚ → ℚ → ℚ)
    (ebf : Int → List (Int × Int × ℚ)) :
    List CellFeature → Int → List Int → List CellFeature × Int
  | st, next, pf :: cf :: rest =>
    let r := gnnPairStep sq at2 (ebf pf) pf cf st next
    gnnLoop sq at2 ebf r.1 r.2 (cf :: rest)
  | st, next, _ => (st, next)

/-- `_process_gnn_results` from the point where the GNN outputs have been
loaded and thresholded: `ebf prev_frame` is `edges_by_frame[prev_frame]`, the
consecutive-frame edges with probability ≥ 0.5 produced by the external
inference. -/
def processGnnMatching (sq : ℚ → ℚ) (at2 : ℚ → ℚ → ℚ)
    (ebf : Int → List (Int × Int × ℚ)) (features : List CellFeature) :
    TrackResult × List CellFeature :=
  if features.isEmpty then (.errNoFeaturesDb, features)
  else
    match frameNums features with
    | [] => (.errNoFeaturesDb, features)
    | f0 :: rest =>
      let ini := assignNewByKeys f0 (frameKeys features f0) [] features 1
      let fin := gnnLoop sq at2 ebf ini.1 ini.2 (f0 :: rest)
      (.gnnCompleted (distinctTrackCount fin.1) features.length
         (f0 :: rest).length, fin.1)

/-- Outcome of `_run_gnn_tracking_internal` as seen by `run_gnn_tracking`:
the call can raise (any exception anywhere in the pipeline), can find no
result files (`_process_gnn_results` early fallback), or can produce the
thresholded edge lists consumed by the matching loop. -/
inductive GnnInfer where
  | fail : GnnInfer
  | noResults : GnnInfer
  | edges : (Int → List (Int × Int × ℚ)) → GnnInfer

/-- Environment of `run_gnn_tracking`: module availability flag, artifact
lookup outcomes, and the external inference. -/
structure GnnEnv where
  /-- `GNN_AVAILABLE` (torch / torch-geometric importable). -/
  gnn_available : Bool
  /-- `get_pretrained_models_for_dataset` found a pair whose files exist. -/
  pretrained_found : Bool
  /-- the default `all_params.pth` / `gnn_tracking.ckpt` files exist. -/
  default_exists : Bool
  /-- `_run_gnn_tracking_internal`. -/
  infer : GnnInfer

/-- Whether the model pair chosen by `run_gnn_tracking` exists on disk:
a dataset-specific pretrained pair if the caller named a dataset and the
lookup succeeded, else the default local pair. -/
def chosenModelsExist (env : GnnEnv) (dataset_name : Option String) : Bool :=
  if dataset_name.isSome && env.pretrained_found then true
  else env.default_exists

/-- `run_gnn_tracking(dataset_name)` of `tracking_services.py`.  The
`model_source` tag the source adds to a successful result dict carries no
behavior and is not modelled. -/
def run_gnn_tracking (env : GnnEnv) (sq : ℚ → ℚ) (at2 : ℚ → ℚ → ℚ)
    (dataset_name : Option String) (features0 extracted : List CellFeature) :
    TrackResult × List CellFeature :=
  let features := if features0.isEmpty then extracted else features0
  if features.isEmpty then (.errNoFeatures, features)
  else if env.gnn_available = false then
    run_tracking_from_mask_labels sq at2 features0 extracted
  else if chosenModelsExist env dataset_name = false then
    run_tracking_from_mask_labels sq at2 features0 extracted
  else
    match env.infer with
    | .fail => run_tracking_from_mask_labels sq at2 features0 extracted
    | .noResults => run_tracking_from_mask_labels sq at2 features0 extracted
    | .edges ebf => processGnnMatching sq at2 ebf features

/-! ### `run_gmm_clustering` — the StateClusterer -/

/-- Feature-column names usable by the clustering feature matrix (the subset
of `getattr(cell, name)` columns the embedding carries). -/
inductive FeatName where
  | area
  | mean_intensity
  | displacement
  | speed
  | delta_x
  | delta_y
  | turning
deriving Repr, DecidableEq

/-- `getattr(cell, feat_name, None)`. -/
def featVal (c : CellFeature) : FeatName → Option ℚ
  | .area => c.area
  | .mean_intensity => c.mean_intensity
  | .displacement => c.displacement
  | .speed => c.speed
  | .delta_x => c.delta_x
  | .delta_y => c.delta_y
  | .turning => c.turning

/-- The `motion_features` set: columns defaulted to `0.0` when `None`. -/
def isMotionFeat : FeatName → Bool
  | .displacement => true
  | .speed => true
  | .delta_x => true
  | .delta_y => true
  | .turning => true
  | _ => false

/-- One row of the feature matrix: `None` motion features become `0.0`;
a `None` non-motion feature invalidates the row (`valid = False`). -/
def featureRow (c : CellFeature) : List FeatName → Option (List ℚ)
  | [] => some []
  | fn :: rest =>
    match featVal c fn with
    | some v => (featureRow c rest).map (fun r => v :: r)
    | none =>
      if isMotionFeat fn then (featureRow c rest).map (fun r => (0 : ℚ) :: r)
      else none

/-- `tracking_mode` of the GMM stage. -/
inductive TrackingMode where
  | tracked
  | untracked
deriving Repr, DecidableEq

/-- Row-eligibility: tracked cells if any exist, else (unless
`require_tracking`) all cells; `none` models the explicit
no-tracked-cells error when tracking is required. -/
def eligibleCells (features : List CellFeature) (require_tracking : Bool) :
    Option (List CellFeature × TrackingMode) :=
  let tracked := features.filter (fun f => f.track_id.isSome)
  if tracked.isEmpty = false then some (tracked, .tracked)
  else if require_tracking = false then some (features, .untracked)
  else none

/-- The `(cell id, feature row)` pairs surviving row filtering — the eligible
rows of the ephemeral feature matrix, with their database ids. -/
def gmmRows (sel : List FeatName) (cells : List CellFeature) :
    List (Nat × List ℚ) :=
  cells.filterMap (fun c => (featureRow c sel).map (fun r => (c.id, r)))

/-- `range(min_components, min(max_components + 1, len(feature_matrix)))` —
the component counts the GMM stage tries. -/
def triedComponents (min_c max_c rows : Nat) : List Nat :=
  List.range' min_c (min (max_c + 1) rows - min_c)

/-- Python `min(l, key=...)` over a nonempty list keyed on the second
component: keeps the first strictly-smallest element. -/
def pyMin (x : Nat × ℚ) (l : List (Nat × ℚ)) : Nat × ℚ :=
  l.foldl (fun m y => if y.2 < m.2 then y else m) x

/-- The sklearn side of the GMM stage, opaque: per component count the fit
either raises (`none`) or yields `(bic, aic)`; `finalLabels n i` is the hard
cluster assignment `predict` gives row `i` after the refit at `n`. -/
structure GmmEnv where
  fitScores : Nat → Option (ℚ × ℚ)
  finalLabels : Nat → Nat → Int

/-- `(n, bic, aic)` for the component counts whose fit succeeded. -/
def gmmScores (env : GmmEnv) (sel : List FeatName) (max_c min_c : Nat)
    (cells : List CellFeature) : List (Nat × ℚ × ℚ) :=
  (triedComponents min_c max_c (gmmRows sel cells).length).filterMap
    (fun n => (env.fitScores n).map (fun ba => (n, ba.1, ba.2)))

/-- `selection_method` of the result dict: `"consensus"` or
`"BIC preferred (BIC=…, AIC=…)"`. -/
inductive SelectionMethod where
  | consensus
  | bicPreferred (k_bic k_aic : Nat)
deriving Repr, DecidableEq

/-- The success payload of `run_gmm_clustering` (the fields the claims
refer to). -/
structure GmmSuccess where
  optimal_components : Nat
  selection_method : SelectionMethod
  optimal_k_by_bic : Nat
  optimal_k_by_aic : Nat
  total_cells : Nat
  tracking_mode : TrackingMode
deriving Repr, DecidableEq

/-- Result dict of `run_gmm_clustering`; each error constructor mirrors one
literal `{"error": ...}` dict, carrying the counts the message interpolates. -/
inductive GmmResult where
  /-- `{"error": "No tracked cells found. ..."}` -/
  | errNoTracked
  /-- `{"error": "Not enough cells for clustering. Need at least {min}, got {n}"}` -/
  | errNotEnoughCells (need got : Nat)
  /-- `{"error": "Not enough cells with valid features. Need {min}, got {n}"}` -/
  | errNotEnoughValid (need got : Nat)
  /-- `{"error": "GMM fitting failed for all component values"}` -/
  | errAllFitsFailed
  | ok (r : GmmSuccess)
deriving Repr, DecidableEq

/-- `cell = CellFeature.query.get(cell_id); cell.gmm_state = int(labels[i])`
for each eligible row. -/
def updateGmmStates (st : List CellFeature) (ids : List Nat)
    (labels : Nat → Int) : List CellFeature :=
  ids.enum.foldl
    (fun st p =>
      st.map (fun f =>
        if f.id = p.2 then { f with gmm_state := some (labels p.1) } else f))
    st

/-- `best_n_bic` and `best_n_aic`: the component counts of the first
BIC-minimal and first AIC-minimal score entries (Python `min(..., key=...)`
over the nonempty score list `s0 :: srest`). -/
def gmmSelect (s0 : Nat × ℚ × ℚ) (srest : List (Nat × ℚ × ℚ)) : Nat × Nat :=
  ((pyMin (s0.1, s0.2.1) (srest.map (fun s => (s.1, s.2.1)))).1,
   (pyMin (s0.1, s0.2.2) (srest.map (fun s => (s.1, s.2.2)))).1)

/-- `run_gmm_clustering(selected_features, max_components, min_components,
require_tracking)` of `clustering_services.py`.  Standardization feeds only
the opaque sklearn fit and is absorbed into `GmmEnv`. -/
def run_gmm_clustering (env : GmmEnv) (sel : List FeatName)
    (max_c min_c : Nat) (require_tracking : Bool)
    (features : List CellFeature) : GmmResult × List CellFeature :=
  match eligibleCells features require_tracking with
  | none => (.errNoTracked, features)
  | some (cells, mode) =>
    if cells.length < min_c then
      (.errNotEnoughCells min_c cells.length, features)
    else if (gmmRows sel cells).length < min_c then
      (.errNotEnoughValid min_c (gmmRows sel cells).length, features)
    else
      match gmmScores env sel max_c min_c cells with
      | [] => (.errAllFitsFailed, features)
      | s0 :: srest =>
        (.ok ⟨(gmmSelect s0 srest).1,
              (if (gmmSelect s0 srest).1 = (gmmSelect s0 srest).2 then
                 SelectionMethod.consensus
               else
                 SelectionMethod.bicPreferred (gmmSelect s0 srest).1
                   (gmmSelect s0 srest).2),
              (gmmSelect s0 srest).1, (gmmSelect s0 srest).2,
              (gmmRows sel cells).length, mode⟩,
         updateGmmStates features ((gmmRows sel cells).map (fun r => r.1))
           (env.finalLabels (gmmSelect s0 srest).1))

/-! ### `run_hmm_smoothing` — the SequenceSmoother -/

/-- The hmmlearn side, opaque: whether `model.fit` raises, and per track the
`model.predict` outcome (`none` models the caught per-track exception). -/
structure HmmEnv where
  fitFails : Bool
  predictTrack : Int → Option (List Int)

/-- Result dict of `run_hmm_smoothing`. -/
inductive HmmResult where
  /-- `{"error": "No GMM states found. Run GMM clustering first."}` -/
  | errNoGmmStates
  /-- `{"error": "No tracked cells with GMM states found"}` -/
  | errNoTrackedGmm
  /-- `{"error": "Not enough sequence data for HMM"}` -/
  | errNoSequenceData
  /-- `{"error": "HMM fitting failed: ..."}` -/
  | errFitFailed
  | ok (n_states tracks_processed cells_updated : Nat)
deriving Repr, DecidableEq

/-- Whether the dict is one of the `{"error": ...}` forms. -/
def HmmResult.isError : HmmResult → Bool
  | .ok _ _ _ => false
  | _ => true

/-- The frame-ordered gmm-state-bearing cells of one track. -/
def trackCells (features : List CellFeature) (tid : Int) :
    List CellFeature :=
  pySort (fun a b => decide (a.frame_num ≤ b.frame_num))
    (features.filter (fun f =>
      decide (f.track_id = some tid) && f.gmm_state.isSome))

/-- The per-track sequences used for the joint HMM fit: tracks with at least
two gmm-state-bearing cells, as `(track_id, cell ids in frame order)`. -/
def hmmSequences (features : List CellFeature) : List (Int × List Nat) :=
  (firstDedup (features.filterMap (fun f =>
      match f.track_id, f.gmm_state with
      | some t, some _ => some t
      | _, _ => none))).filterMap
    (fun tid =>
      let cells := trackCells features tid
      if 2 ≤ cells.length then some (tid, cells.map (fun c => c.id))
      else none)

/-- Write the decoded states of one track (`cell.hmm_state = int(state)`). -/
def applyHmmStates (st : List CellFeature) (ids : List Nat)
    (states : List Int) : List CellFeature :=
  (ids.zip states).foldl
    (fun st p =>
      st.map (fun f =>
        if f.id = p.1 then { f with hmm_state := some p.2 } else f))
    st

/-- `run_hmm_smoothing(n_states)` of `clustering_services.py`. -/
def run_hmm_smoothing (env : HmmEnv) (n_statesArg : Option Nat)
    (features : List CellFeature) : HmmResult × List CellFeature :=
  let uniq := firstDedup (features.filterMap (fun f => f.gmm_state))
  if uniq.isEmpty then (.errNoGmmStates, features)
  else
    let n_states := n_statesArg.getD uniq.length
    let trackIds := firstDedup (features.filterMap (fun f =>
      match f.track_id, f.gmm_state with
      | some t, some _ => some t
      | _, _ => none))
    if trackIds.isEmpty then (.errNoTrackedGmm, features)
    else
      let seqs := hmmSequences features
      if seqs.isEmpty then (.errNoSequenceData, features)
      else if env.fitFails then (.errFitFailed, features)
      else
        let upd := seqs.foldl
          (fun (acc : List CellFeature × Nat) tc =>
            match env.predictTrack tc.1 with
            | some hs =>
              (applyHmmStates acc.1 tc.2 hs, acc.2 + (tc.2.zip hs).length)
            | none => acc)
          (features, 0)
        (.ok n_states seqs.length upd.2, upd.1)

/-! ### `run_full_clustering` — the ClusteringOrchestrator -/

/-- The reason string of the skipped HMM sub-result. -/
def hmmSkipReason : String :=
  "HMM requires tracked cells. Run cell tracking first to enable HMM smoothing."

/-- The `"hmm"` entry of the orchestrator result. -/
inductive HmmPart where
  /-- `{"skipped": True, "reason": ...}` -/
  | skipped (reason : String)
  | ran (r : HmmResult)
deriving Repr, DecidableEq

/-- Result dict of `run_full_clustering`: either the GMM stage's error dict
passed through, or `{gmm, hmm, pipeline, error?}` where `pipelineComplete`
models `pipeline == "complete"` and `liftedError` whether the HMM error was
copied to the top-level `"error"` key. -/
inductive FullResult where
  | gmmFailed (e : GmmResult)
  | ok (gmm : GmmSuccess) (hmm : Option HmmPart) (pipelineComplete : Bool)
      (liftedError : Bool)
deriving Repr, DecidableEq

/-- `if n_components: max_components = min_components = n_components` —
Python truthiness ignores both `None` and `0`. -/
def effRange (max_c min_c : Nat) (n_comp : Option Nat) : Nat × Nat :=
  match n_comp with
  | some n => if n ≠ 0 then (n, n) else (max_c, min_c)
  | none => (max_c, min_c)

/-- Continuation of `run_full_clustering` after the GMM stage: short-circuit
on a GMM error, otherwise gate the HMM stage on `use_hmm` and on
`tracking_mode == "tracked"`. -/
def gmmThenHmm (henv : HmmEnv) (use_hmm : Bool) :
    GmmResult × List CellFeature → FullResult × List CellFeature
  | (.ok gs, st1) =>
    if use_hmm = false then (.ok gs none false false, st1)
    else if gs.tracking_mode = TrackingMode.tracked then
      let h := run_hmm_smoothing henv (some gs.optimal_components) st1
      (.ok gs (some (.ran h.1)) true h.1.isError, h.2)
    else (.ok gs (some (.skipped hmmSkipReason)) false false, st1)
  | (e, st1) => (.gmmFailed e, st1)

/-- `run_full_clustering(selected_features, max_components, min_components,
n_components, use_hmm)` of `clustering_services.py`. -/
def run_full_clustering (genv : GmmEnv) (henv : HmmEnv) (sel : List FeatName)
    (max_c min_c : Nat) (n_comp : Option Nat) (use_hmm : Bool)
    (features : List CellFeature) : FullResult × List CellFeature :=
  gmmThenHmm henv use_hmm
    (run_gmm_clustering genv sel (effRange max_c min_c n_comp).1
      (effRange max_c min_c n_comp).2 false features)

/-! ### Concrete fixtures for the closed witness statements -/

/-- An extracted observation with centroid `(r, c)` and no tracking or
clustering output yet. -/
def mkObs (i : Nat) (fr cid : Int) (r c : ℚ) : CellFeature :=
  ⟨i, fr, cid, some (r, c), some 1, some 1, none, none, none, none, none,
   none, none, none⟩

/-- A concrete stand-in for `np.sqrt` in witnesses. -/
def sqId : ℚ → ℚ := id

/-- A concrete stand-in for `np.arctan2` in witnesses. -/
def atZero : ℚ → ℚ → ℚ := fun _ _ => 0

/-- A concrete solver: the diagonal assignment. -/
def solDiag : Solver := fun _ n m => (List.range (min n m)).map (fun i => (i, i))

/-! ### Claim C1 -/

/-- Claim C1 counterexample: on a feature set spanning a single frame
(`1` observation in frame `0`), `run_tracking` returns the
`{"message": "Need at least 2 frames for tracking", "tracks": 0}` dict,
which does not carry the `"error"` key — not the precondition-error form
`{"error": ...}` the claim asserts. -/
theorem run_tracking_single_frame_not_error_form :
    (run_tracking solDiag sqId atZero 100 [mkObs 1 0 1 0 0] []).1 =
      TrackResult.msgNeedTwoFrames ∧
    hasErrorKey TrackResult.msgNeedTwoFrames = false := ⟨rfl, rfl⟩

/-- Claim C1 (amended): for every non-empty feature set whose observations
span fewer than 2 distinct frame numbers, `run_tracking` returns the
message-form result `{"message": "Need at least 2 frames for tracking",
"tracks": 0}` — a structured result stating at least 2 frames are needed but
**without** the `"error"` key — and writes no `track_id` or motion field to
any observation (the store is returned unchanged). -/
theorem run_tracking_needs_two_frames (sol : Solver) (sq : ℚ → ℚ)
    (at2 : ℚ → ℚ → ℚ) (maxd : ℚ) (features0 extracted : List CellFeature)
    (hne : features0 ≠ []) (hlt : (frameNums features0).length < 2) :
    run_tracking sol sq at2 maxd features0 extracted =
      (TrackResult.msgNeedTwoFrames, features0) ∧
    hasErrorKey TrackResult.msgNeedTwoFrames = false := by
  have hemp : features0.isEmpty = false := by
    cases features0 with
    | nil => exact absurd rfl hne
    | cons a l => rfl
  unfold run_tracking
  rw [hemp]
  constructor
  · simp only [Bool.false_eq_true, if_false, List.isEmpty_eq_true]
    rw [if_neg hne, if_pos hlt]
  · rfl

/-- Claim C1 witness: the amended statement applied at a concrete one-frame
store. -/
theorem run_tracking_needs_two_frames_witness :
    run_tracking solDiag sqId atZero 100 [mkObs 2 5 1 0 0] [] =
      (TrackResult.msgNeedTwoFrames, [mkObs 2 5 1 0 0]) ∧
    hasErrorKey TrackResult.msgNeedTwoFrames = false :=
  run_tracking_needs_two_frames solDiag sqId atZero 100 _ _
    (List.cons_ne_nil _ _) (by decide)

/-! ### Claim C3 -/

/-- Claim C3: whenever the GNN toolkit is unavailable, or the chosen
model-artifact pair (dataset-specific or default) is missing on disk, or the
internal GNN inference raises, `run_gnn_tracking` returns exactly the result
of the mask-label strategy `run_tracking_from_mask_labels` — same result
dict, same committed store — instead of propagating an exception. -/
theorem run_gnn_tracking_falls_back_to_mask_labels (env : GnnEnv)
    (sq : ℚ → ℚ) (at2 : ℚ → ℚ → ℚ) (dataset_name : Option String)
    (features0 extracted : List CellFeature)
    (h : env.gnn_available = false ∨
         chosenModelsExist env dataset_name = false ∨ env.infer = .fail) :
    run_gnn_tracking env sq at2 dataset_name features0 extracted =
      run_tracking_from_mask_labels sq at2 features0 extracted := by
  unfold run_gnn_tracking
  by_cases hemp : (if features0.isEmpty then extracted else features0).isEmpty
  · rw [if_pos hemp]
    unfold run_tracking_from_mask_labels
    rw [if_pos hemp]
  · rw [if_neg hemp]
    by_cases hav : env.gnn_available = false
    · rw [if_pos hav]
    · rw [if_neg hav]
      by_cases hmod : chosenModelsExist env dataset_name = false
      · rw [if_pos hmod]
      · rw [if_neg hmod]
        have hfail : env.infer = .fail := by
          rcases h with h | h | h
          · exact absurd h hav
          · exact absurd h hmod
          · exact h
        rw [hfail]

/-- Claim C3 witness: the fallback equality at a concrete two-frame store
with the toolkit unavailable. -/
theorem run_gnn_tracking_falls_back_witness :
    run_gnn_tracking ⟨false, false, false, .fail⟩ sqId atZero none
        [mkObs 1 0 7 0 0, mkObs 2 1 7 3 4] [] =
      run_tracking_from_mask_labels sqId atZero
        [mkObs 1 0 7 0 0, mkObs 2 1 7 3 4] [] :=
  run_gnn_tracking_falls_back_to_mask_labels _ sqId atZero none _ _
    (Or.inl rfl)

/-! ### Claim C7 -/

/-- Claim C7: `run_hmm_smoothing` invoked when no observation has a non-null
`gmm_state` returns the error result without attempting a fit (the outcome
does not depend on the HMM environment) and mutates nothing; and whenever
the HMM fit raises (`fitFails`), it returns an error result and writes no
`hmm_state` in that invocation (the store is returned unchanged, so
previously committed state remains). -/
theorem run_hmm_smoothing_error_cases (env : HmmEnv)
    (n_statesArg : Option Nat) (features : List CellFeature) :
    ((features.filterMap (fun f => f.gmm_state)) = [] →
      run_hmm_smoothing env n_statesArg features =
        (HmmResult.errNoGmmStates, features)) ∧
    (env.fitFails = true →
      (run_hmm_smoothing env n_statesArg features).1.isError = true ∧
      (run_hmm_smoothing env n_statesArg features).2 = features) := by
  constructor
  · intro hempty
    unfold run_hmm_smoothing
    rw [hempty]
    rfl
  · intro hfail
    unfold run_hmm_smoothing
    by_cases h1 :
        (firstDedup (features.filterMap (fun f => f.gmm_state))).isEmpty
    · rw [if_pos h1]; exact ⟨rfl, rfl⟩
    · rw [if_neg h1]
      by_cases h2 : (firstDedup (features.filterMap (fun f =>
          match f.track_id, f.gmm_state with
          | some t, some _ => some t
          | _, _ => none))).isEmpty
      · rw [if_pos h2]; exact ⟨rfl, rfl⟩
      · rw [if_neg h2]
        by_cases h3 : (hmmSequences features).isEmpty
        · rw [if_pos h3]; exact ⟨rfl, rfl⟩
        · rw [if_neg h3]
          rw [if_pos hfail]
          exact ⟨rfl, rfl⟩

/-- Claim C7 witness: both error cases at a concrete store with no
`gmm_state` and a failing fit environment. -/
theorem run_hmm_smoothing_error_cases_witness :
    (([mkObs 1 0 1 0 0].filterMap (fun f => f.gmm_state)) = [] →
      run_hmm_smoothing ⟨true, fun _ => none⟩ none [mkObs 1 0 1 0 0] =
        (HmmResult.errNoGmmStates, [mkObs 1 0 1 0 0])) ∧
    ((⟨true, fun _ => none⟩ : HmmEnv).fitFails = true →
      (run_hmm_smoothing ⟨true, fun _ => none⟩ none
          [mkObs 1 0 1 0 0]).1.isError = true ∧
      (run_hmm_smoothing ⟨true, fun _ => none⟩ none
          [mkObs 1 0 1 0 0]).2 = [mkObs 1 0 1 0 0]) :=
  run_hmm_smoothing_error_cases ⟨true, fun _ => none⟩ none [mkObs 1 0 1 0 0]

/-! ### Claim C8 -/

/-- Claim C8: for every `run_full_clustering(use_hmm=True)` call whose GMM
stage succeeds with `tracking_mode` different from `"tracked"`, the returned
result carries `hmm = {"skipped": True, "reason": ...}` with the
tracking-required reason and `pipeline = "gmm_only"`, and the HMM fit is
never invoked — the outcome is identical for every HMM environment. -/
theorem run_full_clustering_skips_hmm_untracked (genv : GmmEnv)
    (sel : List FeatName) (max_c min_c : Nat) (n_comp : Option Nat)
    (features : List CellFeature) (gs : GmmSuccess) (st1 : List CellFeature)
    (hg : run_gmm_clustering genv sel (effRange max_c min_c n_comp).1
        (effRange max_c min_c n_comp).2 false features = (.ok gs, st1))
    (hmode : gs.tracking_mode ≠ TrackingMode.tracked) :
    ∀ henv : HmmEnv,
      run_full_clustering genv henv sel max_c min_c n_comp true features =
        (FullResult.ok gs (some (.skipped hmmSkipReason)) false false, st1) := by
  intro henv
  unfold run_full_clustering
  rw [hg]
  unfold gmmThenHmm
  simp only [Bool.true_eq_false, if_false, if_neg hmode]

/-- Claim C8 witness: a concrete untracked store where the GMM stage
succeeds; the orchestrator skips the HMM stage. -/
theorem run_full_clustering_skips_hmm_untracked_witness :
    run_full_clustering ⟨fun n => some ((n : ℚ), (n : ℚ)), fun _ i => (i : Int)⟩
        ⟨true, fun _ => none⟩ [FeatName.area] 10 2 none true
        [mkObs 1 0 1 0 0, mkObs 2 1 1 3 4, mkObs 3 1 2 5 5] =
      (FullResult.ok ⟨2, .consensus, 2, 2, 3, .untracked⟩
        (some (.skipped hmmSkipReason)) false false,
       (run_gmm_clustering
          ⟨fun n => some ((n : ℚ), (n : ℚ)), fun _ i => (i : Int)⟩
          [FeatName.area] 10 2 false
          [mkObs 1 0 1 0 0, mkObs 2 1 1 3 4, mkObs 3 1 2 5 5]).2) :=
  run_full_clustering_skips_hmm_untracked
    ⟨fun n => some ((n : ℚ), (n : ℚ)), fun _ i => (i : Int)⟩
    [FeatName.area] 10 2 none
    [mkObs 1 0 1 0 0, mkObs 2 1 1 3 4, mkObs 3 1 2 5 5]
    ⟨2, .consensus, 2, 2, 3, .untracked⟩ _ rfl (by decide)
    ⟨true, fun _ => none⟩

/-! ### Claim C10 -/

/-- Claim C10: in `run_full_clustering`, a nonzero `n_components` argument
overrides both `min_components` and `max_components` (the call behaves
exactly like a call with `min = max = n_components` and no override), while
`n_components = 0` and `n_components = None` are ignored and leave the
caller-supplied range unchanged. -/
theorem run_full_clustering_n_components_override (genv : GmmEnv)
    (henv : HmmEnv) (sel : List FeatName) (max_c min_c : Nat) (n : Nat)
    (use_hmm : Bool) (features : List CellFeature) :
    (n ≠ 0 →
      run_full_clustering genv henv sel max_c min_c (some n) use_hmm features =
        run_full_clustering genv henv sel n n none use_hmm features) ∧
    (run_full_clustering genv henv sel max_c min_c (some 0) use_hmm features =
      run_full_clustering genv henv sel max_c min_c none use_hmm features) := by
  constructor
  · intro hn
    unfold run_full_clustering
    simp only [effRange, if_pos hn]
  · unfold run_full_clustering
    simp only [effRange]
    rw [if_neg (by simp)]

/-- Claim C10 witness: the override equalities at a concrete call with
`n_components = 3`. -/
theorem run_full_clustering_n_components_override_witness :
    (run_full_clustering
        ⟨fun n => some ((n : ℚ), (n : ℚ)), fun _ i => (i : Int)⟩
        ⟨true, fun _ => none⟩ [FeatName.area] 10 2 (some 3) false
        [mkObs 1 0 1 0 0] =
      run_full_clustering
        ⟨fun n => some ((n : ℚ), (n : ℚ)), fun _ i => (i : Int)⟩
        ⟨true, fun _ => none⟩ [FeatName.area] 3 3 none false
        [mkObs 1 0 1 0 0]) ∧
    (run_full_clustering
        ⟨fun n => some ((n : ℚ), (n : ℚ)), fun _ i => (i : Int)⟩
        ⟨true, fun _ => none⟩ [FeatName.area] 10 2 (some 0) false
        [mkObs 1 0 1 0 0] =
      run_full_clustering
        ⟨fun n => some ((n : ℚ), (n : ℚ)), fun _ i => (i : Int)⟩
        ⟨true, fun _ => none⟩ [FeatName.area] 10 2 none false
        [mkObs 1 0 1 0 0]) :=
  ⟨(run_full_clustering_n_components_override _ _ _ 10 2 3 false _).1
      (by decide),
   (run_full_clustering_n_components_override _ _ _ 10 2 0 false _).2⟩

/-! ### Claims C5 and C6 -/

theorem pyMin_mem (x : Nat × ℚ) (l : List (Nat × ℚ)) : pyMin x l ∈ x :: l := by
  induction l generalizing x with
  | nil => simp [pyMin]
  | cons z l ih =>
    have h1 : pyMin x (z :: l) = pyMin (if z.2 < x.2 then z else x) l := rfl
    rw [h1]
    rcases List.mem_cons.mp (ih (if z.2 < x.2 then z else x)) with h | h
    · rw [h]
      by_cases hz : z.2 < x.2
      · rw [if_pos hz]
        exact List.mem_cons_of_mem _ (List.mem_cons_self _ _)
      · rw [if_neg hz]
        exact List.mem_cons_self _ _
    · exact List.mem_cons_of_mem _ (List.mem_cons_of_mem _ h)

theorem pyMin_le (x : Nat × ℚ) (l : List (Nat × ℚ)) :
    ∀ y ∈ x :: l, (pyMin x l).2 ≤ y.2 := by
  induction l generalizing x with
  | nil =>
    intro y hy
    rcases List.mem_cons.mp hy with rfl | h
    · exact le_refl _
    · simp at h
  | cons z l ih =>
    intro y hy
    have h1 : pyMin x (z :: l) = pyMin (if z.2 < x.2 then z else x) l := rfl
    rw [h1]
    have hx : (if z.2 < x.2 then z else x).2 ≤ x.2 := by
      by_cases hz : z.2 < x.2
      · rw [if_pos hz]; exact le_of_lt hz
      · rw [if_neg hz]
    have hz2 : (if z.2 < x.2 then z else x).2 ≤ z.2 := by
      by_cases hz : z.2 < x.2
      · rw [if_pos hz]
      · rw [if_neg hz]; exact le_of_not_lt hz
    have hle := ih (if z.2 < x.2 then z else x)
    have hhead := hle _ (List.mem_cons_self _ _)
    rcases List.mem_cons.mp hy with rfl | hy
    · exact le_trans hhead hx
    · rcases List.mem_cons.mp hy with rfl | hy
      · exact le_trans hhead hz2
      · exact hle y (List.mem_cons_of_mem _ hy)

/-- Claim C5: whenever `run_gmm_clustering` succeeds (at least one component
count fitted), the selected count equals the BIC-optimal count; the reported
`optimal_k_by_bic` / `optimal_k_by_aic` minimize BIC resp. AIC over the
successful fits; and the selection method records `"consensus"` exactly when
the two optima agree, else `"BIC preferred"` together with both candidate
counts. -/
theorem run_gmm_clustering_selection_policy (env : GmmEnv)
    (sel : List FeatName) (max_c min_c : Nat) (rt : Bool)
    (features cells : List CellFeature) (mode : TrackingMode)
    (r : GmmSuccess)
    (helig : eligibleCells features rt = some (cells, mode))
    (h : (run_gmm_clustering env sel max_c min_c rt features).1 =
      GmmResult.ok r) :
    r.optimal_components = r.optimal_k_by_bic ∧
    (∃ b, (r.optimal_k_by_bic, b) ∈
        (gmmScores env sel max_c min_c cells).map (fun s => (s.1, s.2.1)) ∧
      ∀ p ∈ (gmmScores env sel max_c min_c cells).map (fun s => (s.1, s.2.1)),
        b ≤ p.2) ∧
    (∃ a, (r.optimal_k_by_aic, a) ∈
        (gmmScores env sel max_c min_c cells).map (fun s => (s.1, s.2.2)) ∧
      ∀ p ∈ (gmmScores env sel max_c min_c cells).map (fun s => (s.1, s.2.2)),
        a ≤ p.2) ∧
    (r.optimal_k_by_bic = r.optimal_k_by_aic →
      r.selection_method = SelectionMethod.consensus) ∧
    (r.optimal_k_by_bic ≠ r.optimal_k_by_aic →
      r.selection_method =
        SelectionMethod.bicPreferred r.optimal_k_by_bic r.optimal_k_by_aic) := by
  unfold run_gmm_clustering at h
  rw [helig] at h
  dsimp only at h
  by_cases h1 : cells.length < min_c
  · rw [if_pos h1] at h; simp at h
  · rw [if_neg h1] at h
    by_cases h2 : (gmmRows sel cells).length < min_c
    · rw [if_pos h2] at h; simp at h
    · rw [if_neg h2] at h
      cases hsc : gmmScores env sel max_c min_c cells with
      | nil => rw [hsc] at h; simp at h
      | cons s0 srest =>
        rw [hsc] at h
        simp only [GmmResult.ok.injEq] at h
        subst h
        refine ⟨rfl,
          ⟨(pyMin (s0.1, s0.2.1) (srest.map fun s => (s.1, s.2.1))).2, ?_, ?_⟩,
          ⟨(pyMin (s0.1, s0.2.2) (srest.map fun s => (s.1, s.2.2))).2, ?_, ?_⟩,
          ?_, ?_⟩
        · simpa [gmmSelect] using
            pyMin_mem (s0.1, s0.2.1) (srest.map fun s => (s.1, s.2.1))
        · intro p hp
          refine pyMin_le (s0.1, s0.2.1) (srest.map fun s => (s.1, s.2.1)) p ?_
          simpa using hp
        · simpa [gmmSelect] using
            pyMin_mem (s0.1, s0.2.2) (srest.map fun s => (s.1, s.2.2))
        · intro p hp
          refine pyMin_le (s0.1, s0.2.2) (srest.map fun s => (s.1, s.2.2)) p ?_
          simpa using hp
        · intro heq
          exact if_pos heq
        · intro hne
          exact if_neg hne

/-- Claim C5 witness: the selection-policy consequences at a concrete
successful run (scores `bic = aic = n`, so consensus at the range minimum). -/
theorem run_gmm_clustering_selection_policy_witness :
    (⟨2, .consensus, 2, 2, 3, .untracked⟩ : GmmSuccess).optimal_components =
      (⟨2, .consensus, 2, 2, 3, .untracked⟩ : GmmSuccess).optimal_k_by_bic ∧
    (∃ b, ((2 : Nat), b) ∈
        (gmmScores ⟨fun n => some ((n : ℚ), (n : ℚ)), fun _ i => (i : Int)⟩
          [FeatName.area] 10 2
          [mkObs 1 0 1 0 0, mkObs 2 1 1 3 4, mkObs 3 1 2 5 5]).map
            (fun s => (s.1, s.2.1)) ∧
      ∀ p ∈ (gmmScores ⟨fun n => some ((n : ℚ), (n : ℚ)), fun _ i => (i : Int)⟩
          [FeatName.area] 10 2
          [mkObs 1 0 1 0 0, mkObs 2 1 1 3 4, mkObs 3 1 2 5 5]).map
            (fun s => (s.1, s.2.1)), b ≤ p.2) ∧
    (∃ a, ((2 : Nat), a) ∈
        (gmmScores ⟨fun n => some ((n : ℚ), (n : ℚ)), fun _ i => (i : Int)⟩
          [FeatName.area] 10 2
          [mkObs 1 0 1 0 0, mkObs 2 1 1 3 4, mkObs 3 1 2 5 5]).map
            (fun s => (s.1, s.2.2)) ∧
      ∀ p ∈ (gmmScores ⟨fun n => some ((n : ℚ), (n : ℚ)), fun _ i => (i : Int)⟩
          [FeatName.area] 10 2
          [mkObs 1 0 1 0 0, mkObs 2 1 1 3 4, mkObs 3 1 2 5 5]).map
            (fun s => (s.1, s.2.2)), a ≤ p.2) ∧
    ((2 : Nat) = 2 →
      (⟨2, .consensus, 2, 2, 3, .untracked⟩ : GmmSuccess).selection_method =
        SelectionMethod.consensus) ∧
    ((2 : Nat) ≠ 2 →
      (⟨2, .consensus, 2, 2, 3, .untracked⟩ : GmmSuccess).selection_method =
        SelectionMethod.bicPreferred 2 2) :=
  run_gmm_clustering_selection_policy
    ⟨fun n => some ((n : ℚ), (n : ℚ)), fun _ i => (i : Int)⟩
    [FeatName.area] 10 2 false
    [mkObs 1 0 1 0 0, mkObs 2 1 1 3 4, mkObs 3 1 2 5 5]
    [mkObs 1 0 1 0 0, mkObs 2 1 1 3 4, mkObs 3 1 2 5 5] .untracked
    ⟨2, .consensus, 2, 2, 3, .untracked⟩ (by decide) (by decide)

/-- Claim C6: when the eligible feature-matrix rows number fewer than
`min_components`, `run_gmm_clustering` returns one of the two
not-enough-cells error dicts — each referencing the required and available
counts — and leaves the store untouched (no `gmm_state` written); and the
component counts the stage tries are exactly the integers of
`[min_components, max_components]` clamped to be strictly below the eligible
row count. -/
theorem run_gmm_clustering_row_precondition (env : GmmEnv)
    (sel : List FeatName) (max_c min_c : Nat) (rt : Bool)
    (features : List CellFeature) :
    (∀ cells mode, eligibleCells features rt = some (cells, mode) →
      (gmmRows sel cells).length < min_c →
      (run_gmm_clustering env sel max_c min_c rt features =
          (GmmResult.errNotEnoughCells min_c cells.length, features) ∨
       run_gmm_clustering env sel max_c min_c rt features =
          (GmmResult.errNotEnoughValid min_c (gmmRows sel cells).length,
           features))) ∧
    (∀ rows n, n ∈ triedComponents min_c max_c rows ↔
      min_c ≤ n ∧ n ≤ max_c ∧ n < rows) := by
  constructor
  · intro cells mode helig hrows
    unfold run_gmm_clustering
    rw [helig]
    dsimp only
    by_cases h1 : cells.length < min_c
    · rw [if_pos h1]
      exact Or.inl rfl
    · rw [if_neg h1, if_pos hrows]
      exact Or.inr rfl
  · intro rows n
    unfold triedComponents
    rw [List.mem_range'_1]
    omega

/-- Claim C6 witness: a concrete 3-cell store with `min_components = 5`
returns one of the two error dicts unchanged; and the tried range membership
at concrete bounds. -/
theorem run_gmm_clustering_row_precondition_witness :
    (run_gmm_clustering
        ⟨fun n => some ((n : ℚ), (n : ℚ)), fun _ i => (i : Int)⟩
        [FeatName.area] 10 5 false
        [mkObs 1 0 1 0 0, mkObs 2 1 1 3 4, mkObs 3 1 2 5 5] =
      (GmmResult.errNotEnoughCells 5 3,
       [mkObs 1 0 1 0 0, mkObs 2 1 1 3 4, mkObs 3 1 2 5 5]) ∨
     run_gmm_clustering
        ⟨fun n => some ((n : ℚ), (n : ℚ)), fun _ i => (i : Int)⟩
        [FeatName.area] 10 5 false
        [mkObs 1 0 1 0 0, mkObs 2 1 1 3 4, mkObs 3 1 2 5 5] =
      (GmmResult.errNotEnoughValid 5
        (gmmRows [FeatName.area]
          [mkObs 1 0 1 0 0, mkObs 2 1 1 3 4, mkObs 3 1 2 5 5]).length,
       [mkObs 1 0 1 0 0, mkObs 2 1 1 3 4, mkObs 3 1 2 5 5])) :=
  (run_gmm_clustering_row_precondition
      ⟨fun n => some ((n : ℚ), (n : ℚ)), fun _ i => (i : Int)⟩
      [FeatName.area] 10 5 false
      [mkObs 1 0 1 0 0, mkObs 2 1 1 3 4, mkObs 3 1 2 5 5]).1
    [mkObs 1 0 1 0 0, mkObs 2 1 1 3 4, mkObs 3 1 2 5 5] .untracked
    (by decide) (by decide)

/-! ### Claim C2 -/

theorem acceptPairs_untouched (sq : ℚ → ℚ) (at2 : ℚ → ℚ → ℚ) (maxd : ℚ)
    (prev : List CellFeature) {ci : Nat} :
    ∀ (pairs : List (Nat × Nat)) (cur : List CellFeature) (asg : List Nat),
      ci ∉ pairs.map Prod.fst →
      (acceptPairs sq at2 maxd prev pairs (cur, asg)).1.get? ci =
          cur.get? ci ∧
      (ci ∈ (acceptPairs sq at2 maxd prev pairs (cur, asg)).2 ↔ ci ∈ asg)
  | [], cur, asg, _ => ⟨rfl, Iff.rfl⟩
  | pr :: rest, cur, asg, hnot => by
    have hne : ci ≠ pr.1 := by
      intro h
      exact hnot (by simp [h])
    have hrest : ci ∉ rest.map Prod.fst := by
      intro h
      exact hnot (List.mem_cons_of_mem _ h)
    cases hcg : cur.get? pr.1 with
    | none =>
      simp only [acceptPairs, hcg]
      exact acceptPairs_untouched sq at2 maxd prev rest cur asg hrest
    | some c =>
      cases hpg : prev.get? pr.2 with
      | none =>
        simp only [acceptPairs, hcg, hpg]
        exact acceptPairs_untouched sq at2 maxd prev rest cur asg hrest
      | some p =>
        cases hpc : pairCost sq maxd c p with
        | none =>
          simp only [acceptPairs, hcg, hpg, hpc]
          exact acceptPairs_untouched sq at2 maxd prev rest cur asg hrest
        | some d =>
          simp only [acceptPairs, hcg, hpg, hpc]
          have ih := acceptPairs_untouched sq at2 maxd prev rest
            (modifyIdx cur pr.1 (fun x => linkCells sq at2 p x))
            (asg ++ [pr.1]) hrest
          refine ⟨?_, ?_⟩
          · rw [ih.1, modifyIdx_get?_ne _ _ _ _ hne]
          · rw [ih.2]
            simp [hne]

theorem acceptPairs_length (sq : ℚ → ℚ) (at2 : ℚ → ℚ → ℚ) (maxd : ℚ)
    (prev : List CellFeature) :
    ∀ (pairs : List (Nat × Nat)) (cur : List CellFeature) (asg : List Nat),
      (acceptPairs sq at2 maxd prev pairs (cur, asg)).1.length = cur.length
  | [], cur, asg => rfl
  | pr :: rest, cur, asg => by
    cases hcg : cur.get? pr.1 with
    | none =>
      simp only [acceptPairs, hcg]
      exact acceptPairs_length sq at2 maxd prev rest cur asg
    | some c =>
      cases hpg : prev.get? pr.2 with
      | none =>
        simp only [acceptPairs, hcg, hpg]
        exact acceptPairs_length sq at2 maxd prev rest cur asg
      | some p =>
        cases hpc : pairCost sq maxd c p with
        | none =>
          simp only [acceptPairs, hcg, hpg, hpc]
          exact acceptPairs_length sq at2 maxd prev rest cur asg
        | some d =>
          simp only [acceptPairs, hcg, hpg, hpc]
          rw [acceptPairs_length sq at2 maxd prev rest _ _,
            modifyIdx_length]

theorem acceptPairs_accepted (sq : ℚ → ℚ) (at2 : ℚ → ℚ → ℚ) (maxd : ℚ)
    (prev : List CellFeature) {ci pi : Nat} {c p : CellFeature} {d : ℚ} :
    ∀ (pairs : List (Nat × Nat)) (cur : List CellFeature) (asg : List Nat),
      (pairs.map Prod.fst).Nodup → (ci, pi) ∈ pairs →
      cur.get? ci = some c → prev.get? pi = some p →
      pairCost sq maxd c p = some d →
      (acceptPairs sq at2 maxd prev pairs (cur, asg)).1.get? ci =
          some (linkCells sq at2 p c) ∧
      ci ∈ (acceptPairs sq at2 maxd prev pairs (cur, asg)).2
  | [], _, _, _, hmem, _, _, _ => absurd hmem (List.not_mem_nil _)
  | pr :: rest, cur, asg, hnd, hmem, hcg, hpg, hpc => by
    rcases List.mem_cons.mp hmem with rfl | hmem
    · simp only [acceptPairs, hcg, hpg, hpc]
      have hrest : ci ∉ rest.map Prod.fst := by
        have := hnd
        rw [List.map_cons, List.nodup_cons] at this
        exact this.1
      have ih := acceptPairs_untouched sq at2 maxd prev rest
        (modifyIdx cur ci (fun x => linkCells sq at2 p x))
        (asg ++ [ci]) hrest
      refine ⟨?_, ?_⟩
      · rw [ih.1, modifyIdx_get?_eq, hcg]
        rfl
      · rw [ih.2]
        simp
    · have hci : ci ∈ rest.map Prod.fst :=
        List.mem_map.mpr ⟨(ci, pi), hmem, rfl⟩
      have hne : pr.1 ≠ ci := by
        rw [List.map_cons, List.nodup_cons] at hnd
        intro h
        exact hnd.1 (h ▸ hci)
      have hnd' : (rest.map Prod.fst).Nodup := by
        rw [List.map_cons, List.nodup_cons] at hnd
        exact hnd.2
      cases hcg2 : cur.get? pr.1 with
      | none =>
        simp only [acceptPairs, hcg2]
        exact acceptPairs_accepted sq at2 maxd prev rest cur asg hnd' hmem
          hcg hpg hpc
      | some c2 =>
        cases hpg2 : prev.get? pr.2 with
        | none =>
          simp only [acceptPairs, hcg2, hpg2]
          exact acceptPairs_accepted sq at2 maxd prev rest cur asg hnd' hmem
            hcg hpg hpc
        | some p2 =>
          cases hpc2 : pairCost sq maxd c2 p2 with
          | none =>
            simp only [acceptPairs, hcg2, hpg2, hpc2]
            exact acceptPairs_accepted sq at2 maxd prev rest cur asg hnd'
              hmem hcg hpg hpc
          | some d2 =>
            simp only [acceptPairs, hcg2, hpg2, hpc2]
            exact acceptPairs_accepted sq at2 maxd prev rest
              (modifyIdx cur pr.1 (fun x => linkCells sq at2 p2 x))
              (asg ++ [pr.1]) hnd' hmem
              (by rw [modifyIdx_get?_ne _ _ _ _ (fun h => hne h.symm)]
                  exact hcg)
              hpg hpc

theorem acceptPairs_skipped (sq : ℚ → ℚ) (at2 : ℚ → ℚ → ℚ) (maxd : ℚ)
    (prev : List CellFeature) {ci : Nat} :
    ∀ (pairs : List (Nat × Nat)) (cur : List CellFeature) (asg : List Nat),
      (pairs.map Prod.fst).Nodup → ci ∉ asg →
      (∀ pi c' p', (ci, pi) ∈ pairs → cur.get? ci = some c' →
        prev.get? pi = some p' → pairCost sq maxd c' p' = none) →
      (acceptPairs sq at2 maxd prev pairs (cur, asg)).1.get? ci =
          cur.get? ci ∧
      ci ∉ (acceptPairs sq at2 maxd prev pairs (cur, asg)).2
  | [], _, _, _, hci, _ => ⟨rfl, hci⟩
  | pr :: rest, cur, asg, hnd, hci, hnone => by
    rw [List.map_cons, List.nodup_cons] at hnd
    by_cases heq : pr.1 = ci
    · have hrest : ci ∉ rest.map Prod.fst := heq ▸ hnd.1
      have hskip :
          acceptPairs sq at2 maxd prev (pr :: rest) (cur, asg) =
            acceptPairs sq at2 maxd prev rest (cur, asg) := by
        cases hcg : cur.get? pr.1 with
        | none => simp only [acceptPairs, hcg]
        | some c2 =>
          cases hpg : prev.get? pr.2 with
          | none => simp only [acceptPairs, hcg, hpg]
          | some p2 =>
            have : pairCost sq maxd c2 p2 = none :=
              hnone pr.2 c2 p2 (by rw [← heq]; exact List.mem_cons_self _ _)
                (heq ▸ hcg) hpg
            simp only [acceptPairs, hcg, hpg, this]
      rw [hskip]
      exact
        ⟨(acceptPairs_untouched sq at2 maxd prev rest cur asg hrest).1,
         fun h =>
           hci ((acceptPairs_untouched sq at2 maxd prev rest cur asg
             hrest).2.mp h)⟩
    · have hnone' : ∀ pi c' p', (ci, pi) ∈ rest → cur.get? ci = some c' →
          prev.get? pi = some p' → pairCost sq maxd c' p' = none :=
        fun pi c' p' hm => hnone pi c' p' (List.mem_cons_of_mem _ hm)
      cases hcg : cur.get? pr.1 with
      | none =>
        simp only [acceptPairs, hcg]
        exact acceptPairs_skipped sq at2 maxd prev rest cur asg hnd.2 hci
          hnone'
      | some c2 =>
        cases hpg : prev.get? pr.2 with
        | none =>
          simp only [acceptPairs, hcg, hpg]
          exact acceptPairs_skipped sq at2 maxd prev rest cur asg hnd.2 hci
            hnone'
        | some p2 =>
          cases hpc : pairCost sq maxd c2 p2 with
          | none =>
            simp only [acceptPairs, hcg, hpg, hpc]
            exact acceptPairs_skipped sq at2 maxd prev rest cur asg hnd.2
              hci hnone'
          | some d2 =>
            simp only [acceptPairs, hcg, hpg, hpc]
            have hmod : (modifyIdx cur pr.1
                (fun x => linkCells sq at2 p2 x)).get? ci = cur.get? ci :=
              modifyIdx_get?_ne _ _ _ _ (fun h => heq h.symm)
            have ih := acceptPairs_skipped sq at2 maxd prev rest
              (modifyIdx cur pr.1 (fun x => linkCells sq at2 p2 x))
              (asg ++ [pr.1]) hnd.2
              (by
                intro h
                rcases List.mem_append.mp h with h | h
                · exact hci h
                · exact heq (List.mem_singleton.mp h).symm)
              (fun pi c' p' hm hg => hnone' pi c' p' hm (hmod ▸ hg))
            exact ⟨ih.1.trans hmod, ih.2⟩

theorem assignNewIdsAux_le :
    ∀ (l : List CellFeature) (asg : List Nat) (i : Nat) (next : Int),
      next ≤ (assignNewIdsAux l asg i next).2
  | [], _, _, _ => le_refl _
  | c :: rest, asg, i, next => by
    by_cases h : i ∈ asg
    · simp only [assignNewIdsAux, if_pos h]
      exact assignNewIdsAux_le rest asg (i + 1) next
    · simp only [assignNewIdsAux, if_neg h]
      exact le_trans (by omega) (assignNewIdsAux_le rest asg (i + 1) (next + 1))

theorem assignNewIdsAux_get :
    ∀ (l : List CellFeature) (asg : List Nat) (i : Nat) (next : Int) (j : Nat),
      ((i + j) ∈ asg →
        (assignNewIdsAux l asg i next).1.get? j = l.get? j) ∧
      ((i + j) ∉ asg → j < l.length →
        ∃ t : Int, next ≤ t ∧ t < (assignNewIdsAux l asg i next).2 ∧
          (assignNewIdsAux l asg i next).1.get? j =
            (l.get? j).map (setTrack t))
  | [], asg, i, next, j => by
    constructor
    · intro _; rfl
    · intro _ hj; simp at hj
  | c :: rest, asg, i, next, j => by
    by_cases h : i ∈ asg
    · simp only [assignNewIdsAux, if_pos h]
      cases j with
      | zero =>
        constructor
        · intro _; rfl
        · intro habs _
          exact absurd (by simpa using h) habs
      | succ j =>
        have ih := assignNewIdsAux_get rest asg (i + 1) next j
        constructor
        · intro hmem
          exact ih.1 (by rw [show i + 1 + j = i + (j + 1) by omega]; exact hmem)
        · intro hmem hj
          exact ih.2 (by rw [show i + 1 + j = i + (j + 1) by omega]; exact hmem)
            (by simpa using hj)
    · simp only [assignNewIdsAux, if_neg h]
      cases j with
      | zero =>
        constructor
        · intro hmem
          exact absurd (by simpa using hmem) h
        · intro _ _
          refine ⟨next, le_refl _, ?_, rfl⟩
          exact lt_of_lt_of_le (by omega)
            (assignNewIdsAux_le rest asg (i + 1) (next + 1))
      | succ j =>
        have ih := assignNewIdsAux_get rest asg (i + 1) (next + 1) j
        constructor
        · intro hmem
          exact ih.1 (by rw [show i + 1 + j = i + (j + 1) by omega]; exact hmem)
        · intro hmem hj
          rcases ih.2 (by rw [show i + 1 + j = i + (j + 1) by omega]; exact hmem)
            (by simpa using hj) with ⟨t, ht1, ht2, ht3⟩
          exact ⟨t, by omega, ht2, ht3⟩

theorem linkCells_fields (sq : ℚ → ℚ) (at2 : ℚ → ℚ → ℚ)
    (p c : CellFeature) (cc pc : ℚ × ℚ)
    (hcc : c.centroid = some cc) (hpc : p.centroid = some pc) :
    (linkCells sq at2 p c).track_id = p.track_id ∧
    (linkCells sq at2 p c).delta_x = some (cc.2 - pc.2) ∧
    (linkCells sq at2 p c).delta_y = some (cc.1 - pc.1) ∧
    (linkCells sq at2 p c).displacement =
      some (sq ((cc.2 - pc.2) ^ 2 + (cc.1 - pc.1) ^ 2)) ∧
    (linkCells sq at2 p c).speed = (linkCells sq at2 p c).displacement ∧
    (∀ pdx pdy, p.delta_x = some pdx → p.delta_y = some pdy →
      (linkCells sq at2 p c).turning =
        some (at2 (cc.1 - pc.1) (cc.2 - pc.2) - at2 pdy pdx)) ∧
    ((p.delta_x = none ∨ p.delta_y = none) →
      (linkCells sq at2 p c).turning = c.turning) := by
  unfold linkCells motionFields
  refine ⟨?_, ?_, ?_, ?_, ?_, ?_, ?_⟩ <;>
    cases hdx : p.delta_x <;> cases hdy : p.delta_y <;>
      simp [hcc, hpc, hdx, hdy]

/-- Claim C2: in one FrameLinker step over a consecutive frame pair, every
solver-returned pair with finite cost propagates the previous observation's
`track_id` to the current observation and sets
`delta_x = curr.col − prev.col`, `delta_y = curr.row − prev.row`,
`displacement = speed = sqrt(delta_x² + delta_y²)`, and, when the previous
observation has non-null `delta_x`/`delta_y`,
`turning = atan2(curr.dy, curr.dx) − atan2(prev.dy, prev.dx)` (the raw
difference, not wrapped); while every current-frame observation whose pairs
all have cost `+infinity` — or that the solver left unpaired — keeps its
motion fields and receives a brand-new track id distinct from every existing
one. -/
theorem linkStep_accepted_and_unassigned (sq : ℚ → ℚ) (at2 : ℚ → ℚ → ℚ)
    (maxd : ℚ) (prev curr : List CellFeature) (pairs : List (Nat × Nat))
    (next : Int) (hnd : (pairs.map Prod.fst).Nodup)
    (hfresh : ∀ f, (f ∈ prev ∨ f ∈ curr) → ∀ tid,
      f.track_id = some tid → tid < next) :
    (∀ ci pi c p cc pc, (ci, pi) ∈ pairs →
      curr.get? ci = some c → prev.get? pi = some p →
      c.centroid = some cc → p.centroid = some pc →
      pairCost sq maxd c p ≠ none →
      ∃ e, (linkStep sq at2 maxd prev curr pairs next).1.get? ci = some e ∧
        e.track_id = p.track_id ∧
        e.delta_x = some (cc.2 - pc.2) ∧
        e.delta_y = some (cc.1 - pc.1) ∧
        e.displacement =
          some (sq ((cc.2 - pc.2) ^ 2 + (cc.1 - pc.1) ^ 2)) ∧
        e.speed = e.displacement ∧
        (∀ pdx pdy, p.delta_x = some pdx → p.delta_y = some pdy →
          e.turning =
            some (at2 (cc.1 - pc.1) (cc.2 - pc.2) - at2 pdy pdx)) ∧
        ((p.delta_x = none ∨ p.delta_y = none) → e.turning = c.turning)) ∧
    (∀ ci c, curr.get? ci = some c →
      (∀ pi c' p', (ci, pi) ∈ pairs → curr.get? ci = some c' →
        prev.get? pi = some p' → pairCost sq maxd c' p' = none) →
      ∃ t, (linkStep sq at2 maxd prev curr pairs next).1.get? ci =
          some (setTrack t c) ∧
        next ≤ t ∧ t < (linkStep sq at2 maxd prev curr pairs next).2 ∧
        (∀ f, (f ∈ prev ∨ f ∈ curr) → f.track_id ≠ some t)) := by
  constructor
  · intro ci pi c p cc pc hmem hcg hpg hcc hpcen hcost
    cases hpc : pairCost sq maxd c p with
    | none => exact absurd hpc hcost
    | some d =>
      have hap := acceptPairs_accepted sq at2 maxd prev pairs curr [] hnd
        hmem hcg hpg hpc
      have han := (assignNewIdsAux_get
        (acceptPairs sq at2 maxd prev pairs (curr, [])).1
        (acceptPairs sq at2 maxd prev pairs (curr, [])).2 0 next ci).1
        (by simpa using hap.2)
      refine ⟨linkCells sq at2 p c, ?_, ?_⟩
      · show (assignNewIdsAux _ _ 0 next).1.get? ci = _
        rw [han, hap.1]
      · exact linkCells_fields sq at2 p c cc pc hcc hpcen
  · intro ci c hcg hnone
    have hap := acceptPairs_skipped sq at2 maxd prev pairs curr [] hnd
      (List.not_mem_nil _) hnone
    have hlt : ci < curr.length := by
      by_contra hge
      rw [List.get?_eq_none.mpr (Nat.le_of_not_lt hge)] at hcg
      exact Option.noConfusion hcg
    have hlen := acceptPairs_length sq at2 maxd prev pairs curr []
    rcases (assignNewIdsAux_get
        (acceptPairs sq at2 maxd prev pairs (curr, [])).1
        (acceptPairs sq at2 maxd prev pairs (curr, [])).2 0 next ci).2
        (by simpa using hap.2) (by rw [hlen]; exact hlt) with
      ⟨t, ht1, ht2, ht3⟩
    refine ⟨t, ?_, ht1, ht2, ?_⟩
    · show (assignNewIdsAux _ _ 0 next).1.get? ci = _
      rw [ht3, hap.1, hcg]
      rfl
    · intro f hf htid
      have := hfresh f hf t (by rw [htid])
      omega

/-- Claim C2 witness: one concrete step — previous frame has a tracked cell
at `(0,0)`, current frame a cell at `(3,4)`, the solver returns the pair
`(0,0)` with finite cost — yields the propagated track id and the motion
fields, with no turning since the previous cell had no motion vector. -/
theorem linkStep_accepted_and_unassigned_witness :
    ∃ e, (linkStep sqId atZero 100 [setTrack 1 (mkObs 1 0 1 0 0)]
        [mkObs 2 1 1 3 4] [(0, 0)] 2).1.get? 0 = some e ∧
      e.track_id = some 1 ∧ e.delta_x = some 4 ∧ e.delta_y = some 3 ∧
      e.displacement = some 25 ∧ e.speed = some 25 ∧ e.turning = none := by
  obtain ⟨e, h1, h2, h3, h4, h5, h6, _, h8⟩ :=
    (linkStep_accepted_and_unassigned sqId atZero 100
        [setTrack 1 (mkObs 1 0 1 0 0)] [mkObs 2 1 1 3 4] [(0, 0)] 2
        (by decide)
        (by
          intro f hf tid htid
          rcases hf with hf | hf <;> rw [List.mem_singleton] at hf <;>
            subst hf
          · have h1 := Option.some.inj htid
            omega
          · exact Option.noConfusion htid)).1
      0 0 (mkObs 2 1 1 3 4) (setTrack 1 (mkObs 1 0 1 0 0))
      (3, 4) (0, 0) (by decide) rfl rfl rfl rfl
      (by norm_num [pairCost, mkObs, setTrack, sqId]; decide)
  refine ⟨e, h1, h2, ?_, ?_, ?_, ?_, ?_⟩
  · rw [h3]; norm_num
  · rw [h4]; norm_num
  · rw [h5]; norm_num [sqId]
  · rw [h6, h5]; norm_num [sqId]
  · rw [h8 (Or.inl rfl)]; rfl

/-! ### Claim C9 -/

/-- P3: the four motion fields are populated together or not at all. -/
def motionAtomic (c : CellFeature) : Prop :=
  (c.displacement = none ↔ c.delta_x = none) ∧
  (c.displacement = none ↔ c.delta_y = none) ∧
  (c.displacement = none ↔ c.speed = none)

instance (c : CellFeature) : Decidable (motionAtomic c) := by
  unfold motionAtomic; infer_instance

theorem motionAtomic_motionFields (sq : ℚ → ℚ) (at2 : ℚ → ℚ → ℚ)
    (p : CellFeature) {c : CellFeature} (h : motionAtomic c) :
    motionAtomic (motionFields sq at2 p c) := by
  unfold motionFields
  cases hcc : c.centroid with
  | none => exact h
  | some cc =>
    cases hpc : p.centroid with
    | none => exact h
    | some pc =>
      cases hdx : p.delta_x with
      | none => exact ⟨by simp, by simp, by simp⟩
      | some pdx =>
        cases hdy : p.delta_y with
        | none => exact ⟨by simp, by simp, by simp⟩
        | some pdy => exact ⟨by simp, by simp, by simp⟩

theorem motionAtomic_setTrack (t : Int) {c : CellFeature}
    (h : motionAtomic c) : motionAtomic (setTrack t c) := h

theorem motionAtomic_setTrackId (tid : Option Int) {c : CellFeature}
    (h : motionAtomic c) : motionAtomic { c with track_id := tid } := h

theorem motionAtomic_linkCells (sq : ℚ → ℚ) (at2 : ℚ → ℚ → ℚ)
    (p : CellFeature) {c : CellFeature} (h : motionAtomic c) :
    motionAtomic (linkCells sq at2 p c) :=
  motionAtomic_motionFields sq at2 p (motionAtomic_setTrackId p.track_id h)

theorem allAtomic_modifyIdx {st : List CellFeature} {i : Nat}
    {g : CellFeature → CellFeature}
    (hg : ∀ c, motionAtomic c → motionAtomic (g c))
    (h : ∀ f ∈ st, motionAtomic f) :
    ∀ f ∈ modifyIdx st i g, motionAtomic f := by
  intro f hf
  rcases modifyIdx_mem st i hf with hf | ⟨b, hb, rfl⟩
  · exact h f hf
  · exact hg b (h b hb)

theorem allAtomic_updateRep {g : CellFeature → CellFeature} {fr cid : Int}
    {st : List CellFeature}
    (hg : ∀ c, motionAtomic c → motionAtomic (g c))
    (h : ∀ f ∈ st, motionAtomic f) :
    ∀ f ∈ updateRep g fr cid st, motionAtomic f := by
  intro f hf
  rcases updateRep_mem hf with hf | ⟨b, hb, rfl⟩
  · exact h f hf
  · exact hg b (h b hb)

theorem allAtomic_acceptPairs (sq : ℚ → ℚ) (at2 : ℚ → ℚ → ℚ) (maxd : ℚ)
    (prev : List CellFeature) :
    ∀ (pairs : List (Nat × Nat)) (cur : List CellFeature) (asg : List Nat),
      (∀ f ∈ cur, motionAtomic f) →
      ∀ f ∈ (acceptPairs sq at2 maxd prev pairs (cur, asg)).1, motionAtomic f
  | [], cur, asg, h => h
  | pr :: rest, cur, asg, h => by
    cases hcg : cur.get? pr.1 with
    | none =>
      simp only [acceptPairs, hcg]
      exact allAtomic_acceptPairs sq at2 maxd prev rest cur asg h
    | some c =>
      cases hpg : prev.get? pr.2 with
      | none =>
        simp only [acceptPairs, hcg, hpg]
        exact allAtomic_acceptPairs sq at2 maxd prev rest cur asg h
      | some p =>
        cases hpc : pairCost sq maxd c p with
        | none =>
          simp only [acceptPairs, hcg, hpg, hpc]
          exact allAtomic_acceptPairs sq at2 maxd prev rest cur asg h
        | some d =>
          simp only [acceptPairs, hcg, hpg, hpc]
          exact allAtomic_acceptPairs sq at2 maxd prev rest _ _
            (allAtomic_modifyIdx
              (fun c2 hc2 => motionAtomic_linkCells sq at2 p hc2) h)

theorem allAtomic_assignNewIdsAux :
    ∀ (l : List CellFeature) (asg : List Nat) (i : Nat) (next : Int),
      (∀ f ∈ l, motionAtomic f) →
      ∀ f ∈ (assignNewIdsAux l asg i next).1, motionAtomic f
  | [], _, _, _, h => h
  | c :: rest, asg, i, next, h => by
    have hc := h c (List.mem_cons_self _ _)
    have hr := fun f hf => h f (List.mem_cons_of_mem _ hf)
    by_cases hi : i ∈ asg
    · simp only [assignNewIdsAux, if_pos hi]
      intro f hf
      rcases List.mem_cons.mp hf with rfl | hf
      · exact hc
      · exact allAtomic_assignNewIdsAux rest asg (i + 1) next hr f hf
    · simp only [assignNewIdsAux, if_neg hi]
      intro f hf
      rcases List.mem_cons.mp hf with rfl | hf
      · exact motionAtomic_setTrack next hc
      · exact allAtomic_assignNewIdsAux rest asg (i + 1) (next + 1) hr f hf

theorem allAtomic_linkStep (sq : ℚ → ℚ) (at2 : ℚ → ℚ → ℚ) (maxd : ℚ)
    (prev curr : List CellFeature) (pairs : List (Nat × Nat)) (next : Int)
    (h : ∀ f ∈ curr, motionAtomic f) :
    ∀ f ∈ (linkStep sq at2 maxd prev curr pairs next).1, motionAtomic f :=
  allAtomic_assignNewIdsAux _ _ 0 next
    (allAtomic_acceptPairs sq at2 maxd prev pairs curr [] h)

theorem allAtomic_initFirstFrame :
    ∀ (l : List CellFeature) (next : Int), (∀ f ∈ l, motionAtomic f) →
      ∀ f ∈ (initFirstFrame l next).1, motionAtomic f
  | [], _, h => h
  | c :: rest, next, h => by
    simp only [initFirstFrame]
    intro f hf
    rcases List.mem_cons.mp hf with rfl | hf
    · exact motionAtomic_setTrack next (h c (List.mem_cons_self _ _))
    · exact allAtomic_initFirstFrame rest (next + 1)
        (fun f2 hf2 => h f2 (List.mem_cons_of_mem _ hf2)) f hf

theorem allAtomic_trackLoop (sol : Solver) (sq : ℚ → ℚ) (at2 : ℚ → ℚ → ℚ)
    (maxd : ℚ) :
    ∀ (rest : List (List CellFeature)) (prev : List CellFeature) (next : Int),
      (∀ f ∈ prev, motionAtomic f) →
      (∀ fr ∈ rest, ∀ f ∈ fr, motionAtomic f) →
      ∀ fr ∈ trackLoop sol sq at2 maxd prev rest next, ∀ f ∈ fr,
        motionAtomic f
  | [], prev, next, hp, _ => by
    intro fr hfr
    simp only [trackLoop, List.mem_singleton] at hfr
    subst hfr
    exact hp
  | curr :: rest, prev, next, hp, hr => by
    have hcurr := hr curr (List.mem_cons_self _ _)
    have hrest := fun fr hfr => hr fr (List.mem_cons_of_mem _ hfr)
    by_cases hsh : 0 < curr.length ∧ 0 < prev.length
    · simp only [trackLoop, if_pos hsh]
      intro fr hfr
      rcases List.mem_cons.mp hfr with rfl | hfr
      · exact hp
      · exact allAtomic_trackLoop sol sq at2 maxd rest _ _
          (allAtomic_linkStep sq at2 maxd prev curr _ next hcurr)
          hrest fr hfr
    · simp only [trackLoop, if_neg hsh]
      intro fr hfr
      rcases List.mem_cons.mp hfr with rfl | hfr
      · exact hp
      · exact allAtomic_trackLoop sol sq at2 maxd rest curr next hcurr
          hrest fr hfr

theorem allAtomic_run_tracking (sol : Solver) (sq : ℚ → ℚ)
    (at2 : ℚ → ℚ → ℚ) (maxd : ℚ) (features0 extracted : List CellFeature)
    (h0 : ∀ f ∈ features0, motionAtomic f)
    (h1 : ∀ f ∈ extracted, motionAtomic f) :
    ∀ f ∈ (run_tracking sol sq at2 maxd features0 extracted).2,
      motionAtomic f := by
  simp only [run_tracking]
  set F := if features0.isEmpty then extracted else features0 with hF
  have hfe : ∀ f ∈ F, motionAtomic f := by
    rw [hF]
    split
    · exact h1
    · exact h0
  by_cases hem : F.isEmpty
  · rw [if_pos hem]
    exact hfe
  · rw [if_neg hem]
    by_cases hlen : (frameNums F).length < 2
    · rw [if_pos hlen]
      exact hfe
    · rw [if_neg hlen]
      cases hframes : (frameNums F).map
          (fun n => F.filter (fun f3 => decide (f3.frame_num = n))) with
      | nil =>
        simp only [hframes]
        exact hfe
      | cons first rest =>
        simp only [hframes]
        intro f hf
        rw [List.mem_flatten] at hf
        rcases hf with ⟨fr, hfr, hf⟩
        have hframe : ∀ fr2 ∈ first :: rest, ∀ f2 ∈ fr2, motionAtomic f2 := by
          intro fr2 hfr2 f2 hf2
          have hmem : fr2 ∈ (frameNums F).map
              (fun n => F.filter (fun f3 => decide (f3.frame_num = n))) := by
            rw [hframes]
            exact hfr2
          rcases List.mem_map.mp hmem with ⟨n, _, rfl⟩
          exact hfe f2 (List.mem_filter.mp hf2).1
        exact allAtomic_trackLoop sol sq at2 maxd rest _ _
          (allAtomic_initFirstFrame first 1
            (hframe first (List.mem_cons_self _ _)))
          (fun fr2 hfr2 => hframe fr2 (List.mem_cons_of_mem _ hfr2))
          fr hfr f hf

theorem allAtomic_maskKeysFold (sq : ℚ → ℚ) (at2 : ℚ → ℚ → ℚ)
    (pf cf : Int) (pks : List Int) :
    ∀ (ks : List Int) (st : List CellFeature),
      (∀ f ∈ st, motionAtomic f) →
      ∀ f ∈ maskKeysFold sq at2 pf cf pks ks st, motionAtomic f
  | [], st, h => h
  | cid :: ks, st, h => by
    simp only [maskKeysFold]
    refine allAtomic_maskKeysFold sq at2 pf cf pks ks _ ?_
    unfold maskKeyStep
    by_cases hc : cid ∈ pks
    · rw [if_pos hc]
      cases hfr : findRep pf cid st with
      | none => exact h
      | some p =>
        exact allAtomic_updateRep
          (fun c2 hc2 => motionAtomic_motionFields sq at2 p hc2) h
    · rw [if_neg hc]
      exact h

theorem allAtomic_maskLoop (sq : ℚ → ℚ) (at2 : ℚ → ℚ → ℚ) :
    ∀ (l : List Int) (st : List CellFeature), (∀ f ∈ st, motionAtomic f) →
      ∀ f ∈ maskLoop sq at2 st l, motionAtomic f
  | [], _, h => h
  | [_], _, h => h
  | pf :: cf :: rest, st, h => by
    simp only [maskLoop]
    exact allAtomic_maskLoop sq at2 (cf :: rest) _
      (allAtomic_maskKeysFold sq at2 pf cf _ _ st h)

theorem allAtomic_run_tracking_from_mask_labels (sq : ℚ → ℚ)
    (at2 : ℚ → ℚ → ℚ) (features0 extracted : List CellFeature)
    (h0 : ∀ f ∈ features0, motionAtomic f)
    (h1 : ∀ f ∈ extracted, motionAtomic f) :
    ∀ f ∈ (run_tracking_from_mask_labels sq at2 features0 extracted).2,
      motionAtomic f := by
  simp only [run_tracking_from_mask_labels]
  set F := if features0.isEmpty then extracted else features0 with hF
  have hfe : ∀ f ∈ F, motionAtomic f := by
    rw [hF]
    split
    · exact h1
    · exact h0
  by_cases hem : F.isEmpty
  · rw [if_pos hem]
    exact hfe
  · rw [if_neg hem]
    by_cases hmul : (multi_frame_ids F).isEmpty
    · rw [if_pos hmul]
      exact hfe
    · rw [if_neg hmul]
      refine allAtomic_maskLoop sq at2 (frameNums F) (maskSt0 F) ?_
      intro f hf
      rcases List.mem_map.mp hf with ⟨b, hb, rfl⟩
      exact motionAtomic_setTrackId (some b.cell_id) (hfe b hb)

theorem allAtomic_gnnAccept (sq : ℚ → ℚ) (at2 : ℚ → ℚ → ℚ) (pf cf : Int)
    (pks cks : List Int) :
    ∀ (edges : List (Int × Int × ℚ)) (st : List CellFeature)
      (ap ac : List Int), (∀ f ∈ st, motionAtomic f) →
      ∀ f ∈ (gnnAccept sq at2 pf cf pks cks edges (st, ap, ac)).1,
        motionAtomic f
  | [], _, _, _, h => h
  | e :: rest, st, ap, ac, h => by
    by_cases hc : e.1 ∈ pks ∧ e.2.1 ∈ cks ∧ e.1 ∉ ap ∧ e.2.1 ∉ ac
    · simp only [gnnAccept, if_pos hc]
      cases hfr : findRep pf e.1 st with
      | none => exact allAtomic_gnnAccept sq at2 pf cf pks cks rest st ap ac h
      | some p =>
        exact allAtomic_gnnAccept sq at2 pf cf pks cks rest _ _ _
          (allAtomic_updateRep
            (fun c2 hc2 => motionAtomic_linkCells sq at2 p hc2) h)
    · simp only [gnnAccept, if_neg hc]
      exact allAtomic_gnnAccept sq at2 pf cf pks cks rest st ap ac h

theorem allAtomic_assignNewByKeys (cf : Int) (skip : List Int) :
    ∀ (keys : List Int) (st : List CellFeature) (next : Int),
      (∀ f ∈ st, motionAtomic f) →
      ∀ f ∈ (assignNewByKeys cf keys skip st next).1, motionAtomic f
  | [], _, _, h => h
  | k :: ks, st, next, h => by
    by_cases hk : k ∈ skip
    · have : assignNewByKeys cf (k :: ks) skip st next =
          assignNewByKeys cf ks skip st next := by
        simp only [assignNewByKeys, List.foldl_cons, if_pos hk]
      rw [this]
      exact allAtomic_assignNewByKeys cf skip ks st next h
    · have : assignNewByKeys cf (k :: ks) skip st next =
          assignNewByKeys cf ks skip
            (updateRep (setTrack next) cf k st) (next + 1) := by
        simp only [assignNewByKeys, List.foldl_cons, if_neg hk]
      rw [this]
      exact allAtomic_assignNewByKeys cf skip ks _ _
        (allAtomic_updateRep (fun c2 hc2 => motionAtomic_setTrack next hc2) h)

theorem allAtomic_gnnPairStep (sq : ℚ → ℚ) (at2 : ℚ → ℚ → ℚ)
    (edges : List (Int × Int × ℚ)) (pf cf : Int) (st : List CellFeature)
    (next : Int) (h : ∀ f ∈ st, motionAtomic f) :
    ∀ f ∈ (gnnPairStep sq at2 edges pf cf st next).1, motionAtomic f := by
  simp only [gnnPairStep]
  exact allAtomic_assignNewByKeys cf _ _ _ next
    (allAtomic_gnnAccept sq at2 pf cf _ _ (sortEdges edges) st [] [] h)

theorem allAtomic_gnnLoop (sq : ℚ → ℚ) (at2 : ℚ → ℚ → ℚ)
    (ebf : Int → List (Int × Int × ℚ)) :
    ∀ (l : List Int) (st : List CellFeature) (next : Int),
      (∀ f ∈ st, motionAtomic f) →
      ∀ f ∈ (gnnLoop sq at2 ebf st next l).1, motionAtomic f
  | [], _, _, h => h
  | [_], _, _, h => h
  | pf :: cf :: rest, st, next, h => by
    simp only [gnnLoop]
    exact allAtomic_gnnLoop sq at2 ebf (cf :: rest) _ _
      (allAtomic_gnnPairStep sq at2 (ebf pf) pf cf st next h)

theorem allAtomic_processGnnMatching (sq : ℚ → ℚ) (at2 : ℚ → ℚ → ℚ)
    (ebf : Int → List (Int × Int × ℚ)) (features : List CellFeature)
    (h : ∀ f ∈ features, motionAtomic f) :
    ∀ f ∈ (processGnnMatching sq at2 ebf features).2, motionAtomic f := by
  simp only [processGnnMatching]
  by_cases hem : features.isEmpty
  · rw [if_pos hem]
    exact h
  · rw [if_neg hem]
    cases hf0 : frameNums features with
    | nil => exact h
    | cons f0 rest =>
      exact allAtomic_gnnLoop sq at2 ebf (f0 :: rest) _ _
        (allAtomic_assignNewByKeys f0 [] (frameKeys features f0) features 1 h)

/-- Claim C9: after any tracking run — nearest-neighbor, mask-label, or GNN
path — every observation in the committed store satisfies motion-field
atomicity: `displacement`, `delta_x`, `delta_y` and `speed` are `None`
together or populated together (given the store satisfied it before the run,
as it does for freshly extracted features, whose motion fields are all
`None`). -/
theorem tracking_motion_atomicity (sol : Solver) (env : GnnEnv)
    (sq : ℚ → ℚ) (at2 : ℚ → ℚ → ℚ) (maxd : ℚ) (ds : Option String)
    (features0 extracted : List CellFeature)
    (h0 : ∀ f ∈ features0, motionAtomic f)
    (h1 : ∀ f ∈ extracted, motionAtomic f) :
    (∀ f ∈ (run_tracking sol sq at2 maxd features0 extracted).2,
      motionAtomic f) ∧
    (∀ f ∈ (run_tracking_from_mask_labels sq at2 features0 extracted).2,
      motionAtomic f) ∧
    (∀ f ∈ (run_gnn_tracking env sq at2 ds features0 extracted).2,
      motionAtomic f) := by
  refine ⟨allAtomic_run_tracking sol sq at2 maxd features0 extracted h0 h1,
    allAtomic_run_tracking_from_mask_labels sq at2 features0 extracted h0 h1,
    ?_⟩
  simp only [run_gnn_tracking]
  set F := if features0.isEmpty then extracted else features0 with hF
  have hfe : ∀ f ∈ F, motionAtomic f := by
    rw [hF]
    split
    · exact h1
    · exact h0
  by_cases hem : F.isEmpty
  · rw [if_pos hem]
    exact hfe
  · rw [if_neg hem]
    by_cases hav : env.gnn_available = false
    · rw [if_pos hav]
      exact allAtomic_run_tracking_from_mask_labels sq at2 features0
        extracted h0 h1
    · rw [if_neg hav]
      by_cases hmod : chosenModelsExist env ds = false
      · rw [if_pos hmod]
        exact allAtomic_run_tracking_from_mask_labels sq at2 features0
          extracted h0 h1
      · rw [if_neg hmod]
        cases env.infer with
        | fail =>
          exact allAtomic_run_tracking_from_mask_labels sq at2 features0
            extracted h0 h1
        | noResults =>
          exact allAtomic_run_tracking_from_mask_labels sq at2 features0
            extracted h0 h1
        | edges ebf => exact allAtomic_processGnnMatching sq at2 ebf F hfe

/-- Claim C9 witness: atomicity of all three paths at a concrete two-frame
store with all motion fields initially `None` and an available GNN
environment with one high-confidence edge. -/
theorem tracking_motion_atomicity_witness :
    (∀ f ∈ (run_tracking solDiag sqId atZero 100
        [mkObs 1 0 7 0 0, mkObs 2 1 7 3 4] []).2, motionAtomic f) ∧
    (∀ f ∈ (run_tracking_from_mask_labels sqId atZero
        [mkObs 1 0 7 0 0, mkObs 2 1 7 3 4] []).2, motionAtomic f) ∧
    (∀ f ∈ (run_gnn_tracking ⟨true, false, true,
          .edges (fun _ => [(7, 7, 9/10)])⟩ sqId atZero none
        [mkObs 1 0 7 0 0, mkObs 2 1 7 3 4] []).2, motionAtomic f) :=
  tracking_motion_atomicity solDiag
    ⟨true, false, true, .edges (fun _ => [(7, 7, 9/10)])⟩
    sqId atZero 100 none [mkObs 1 0 7 0 0, mkObs 2 1 7 3 4] []
    (by decide) (by decide)

/-! ### Claim C4 -/

theorem maskKeyStep_findRep_pres (sq : ℚ → ℚ) (at2 : ℚ → ℚ → ℚ)
    (pf cf k : Int) (pks : List Int) (st : List CellFeature)
    {fr cid : Int} (hne : (fr, cid) ≠ (cf, k)) :
    findRep fr cid (maskKeyStep sq at2 pf cf pks k st) =
      findRep fr cid st := by
  unfold maskKeyStep
  by_cases hk : k ∈ pks
  · rw [if_pos hk]
    cases hfr : findRep pf k st with
    | none => rfl
    | some p =>
      exact findRep_updateRep_other
        (fun x => keyOf_motionFields sq at2 p x) hne st
  · rw [if_neg hk]

theorem maskKeyStep_keyOf (sq : ℚ → ℚ) (at2 : ℚ → ℚ → ℚ)
    (pf cf k : Int) (pks : List Int) (st : List CellFeature) :
    (maskKeyStep sq at2 pf cf pks k st).map keyOf = st.map keyOf := by
  unfold maskKeyStep
  by_cases hk : k ∈ pks
  · rw [if_pos hk]
    cases hfr : findRep pf k st with
    | none => rfl
    | some p =>
      exact map_keyOf_updateRep (fun x => keyOf_motionFields sq at2 p x) cf k st
  · rw [if_neg hk]

theorem maskKeysFold_findRep_pres (sq : ℚ → ℚ) (at2 : ℚ → ℚ → ℚ)
    (pf cf : Int) (pks : List Int) :
    ∀ (ks : List Int) (st : List CellFeature) (fr cid : Int),
      (fr ≠ cf ∨ cid ∉ ks) →
      findRep fr cid (maskKeysFold sq at2 pf cf pks ks st) =
        findRep fr cid st
  | [], _, _, _, _ => rfl
  | k :: ks, st, fr, cid, h => by
    have hne : (fr, cid) ≠ (cf, k) := by
      intro he
      rcases h with h | h
      · exact h (congrArg Prod.fst he)
      · have h2 : cid = k := congrArg Prod.snd he
        exact h (h2 ▸ List.mem_cons_self _ _)
    have h' : fr ≠ cf ∨ cid ∉ ks := by
      rcases h with h | h
      · exact Or.inl h
      · exact Or.inr (fun hm => h (List.mem_cons_of_mem _ hm))
    simp only [maskKeysFold]
    exact (maskKeysFold_findRep_pres sq at2 pf cf pks ks _ fr cid h').trans
      (maskKeyStep_findRep_pres sq at2 pf cf k pks st hne)

theorem maskKeysFold_keyOf (sq : ℚ → ℚ) (at2 : ℚ → ℚ → ℚ)
    (pf cf : Int) (pks : List Int) :
    ∀ (ks : List Int) (st : List CellFeature),
      (maskKeysFold sq at2 pf cf pks ks st).map keyOf = st.map keyOf
  | [], _ => rfl
  | k :: ks, st => by
    simp only [maskKeysFold]
    exact (maskKeysFold_keyOf sq at2 pf cf pks ks _).trans
      (maskKeyStep_keyOf sq at2 pf cf k pks st)

theorem maskKeysFold_findRep_main (sq : ℚ → ℚ) (at2 : ℚ → ℚ → ℚ)
    (pf cf : Int) (pks : List Int) (hpfcf : pf ≠ cf) :
    ∀ (ks : List Int) (st : List CellFeature) (cid : Int),
      ks.Nodup → cid ∈ ks → cid ∈ pks →
      findRep cf cid (maskKeysFold sq at2 pf cf pks ks st) =
        match findRep pf cid st with
        | some p => (findRep cf cid st).map (motionFields sq at2 p)
        | none => findRep cf cid st
  | [], _, _, _, hmem, _ => absurd hmem (List.not_mem_nil _)
  | k :: ks, st, cid, hnd, hmem, hpks => by
    rcases List.mem_cons.mp hmem with rfl | hmem
    · have hcidks : cid ∉ ks := (List.nodup_cons.mp hnd).1
      simp only [maskKeysFold]
      rw [maskKeysFold_findRep_pres sq at2 pf cf pks ks _ cf cid
        (Or.inr hcidks)]
      unfold maskKeyStep
      rw [if_pos hpks]
      cases hfr : findRep pf cid st with
      | none => rfl
      | some p =>
        exact findRep_updateRep_self
          (fun x => keyOf_motionFields sq at2 p x) cf cid st
    · have hk : k ≠ cid := by
        intro he
        exact (List.nodup_cons.mp hnd).1 (he ▸ hmem)
      have hne_pf : (pf, cid) ≠ (cf, k) :=
        fun he => hpfcf (congrArg Prod.fst he)
      have hne_cf : (cf, cid) ≠ (cf, k) :=
        fun he => hk (congrArg Prod.snd he).symm
      simp only [maskKeysFold]
      rw [maskKeysFold_findRep_main sq at2 pf cf pks hpfcf ks _ cid
          (List.nodup_cons.mp hnd).2 hmem hpks,
        maskKeyStep_findRep_pres sq at2 pf cf k pks st hne_pf,
        maskKeyStep_findRep_pres sq at2 pf cf k pks st hne_cf]

theorem maskStepFrames_findRep_pres (sq : ℚ → ℚ) (at2 : ℚ → ℚ → ℚ)
    (st : List CellFeature) (pf cf : Int) {fr cid : Int} (hne : fr ≠ cf) :
    findRep fr cid (maskStepFrames sq at2 st pf cf) = findRep fr cid st :=
  maskKeysFold_findRep_pres sq at2 pf cf _ _ st fr cid (Or.inl hne)

theorem maskStepFrames_keyOf (sq : ℚ → ℚ) (at2 : ℚ → ℚ → ℚ)
    (st : List CellFeature) (pf cf : Int) :
    (maskStepFrames sq at2 st pf cf).map keyOf = st.map keyOf :=
  maskKeysFold_keyOf sq at2 pf cf _ _ st

theorem maskStepFrames_findRep_main (sq : ℚ → ℚ) (at2 : ℚ → ℚ → ℚ)
    (st : List CellFeature) (pf cf : Int) (hpfcf : pf ≠ cf) {cid : Int}
    (hcf : cid ∈ frameKeys st cf) (hpf : cid ∈ frameKeys st pf) :
    ∃ p c, findRep pf cid st = some p ∧ findRep cf cid st = some c ∧
      findRep cf cid (maskStepFrames sq at2 st pf cf) =
        some (motionFields sq at2 p c) := by
  rcases Option.isSome_iff_exists.mp (mem_frameKeys_isSome.mp hpf) with ⟨p, hp⟩
  rcases Option.isSome_iff_exists.mp (mem_frameKeys_isSome.mp hcf) with ⟨c, hc⟩
  refine ⟨p, c, hp, hc, ?_⟩
  unfold maskStepFrames
  rw [maskKeysFold_findRep_main sq at2 pf cf _ hpfcf _ st cid
    (frameKeys_nodup st cf) hcf hpf]
  rw [hp, hc]
  rfl

theorem maskLoop_findRep_pres (sq : ℚ → ℚ) (at2 : ℚ → ℚ → ℚ) :
    ∀ (l : List Int) (st : List CellFeature) (fr cid : Int),
      fr ∉ l.tail →
      findRep fr cid (maskLoop sq at2 st l) = findRep fr cid st
  | [], _, _, _, _ => rfl
  | [_], _, _, _, _ => rfl
  | pf :: cf :: rest, st, fr, cid, h => by
    have hfr_cf : fr ≠ cf := fun he => h (he ▸ List.mem_cons_self _ _)
    have h' : fr ∉ (cf :: rest).tail :=
      fun hm => h (List.mem_cons_of_mem _ hm)
    simp only [maskLoop]
    exact (maskLoop_findRep_pres sq at2 (cf :: rest) _ fr cid h').trans
      (maskStepFrames_findRep_pres sq at2 st pf cf hfr_cf)

theorem maskLoop_findRep_main (sq : ℚ → ℚ) (at2 : ℚ → ℚ → ℚ) :
    ∀ (l : List Int) (st : List CellFeature), l.Nodup →
      ∀ pf cf, (pf, cf) ∈ l.zip l.tail →
      ∀ cid, cid ∈ frameKeys st cf → cid ∈ frameKeys st pf →
      ∃ p c, findRep pf cid (maskLoop sq at2 st l) = some p ∧
        findRep cf cid st = some c ∧
        findRep cf cid (maskLoop sq at2 st l) =
          some (motionFields sq at2 p c)
  | [], _, _, _, _, hmem, _, _, _ => absurd hmem (List.not_mem_nil _)
  | [_], _, _, _, _, hmem, _, _, _ => absurd hmem (List.not_mem_nil _)
  | pf' :: cf' :: rest, st, hnd, pf, cf, hmem, cid, hcf, hpf => by
    have hnd1 := List.nodup_cons.mp hnd
    have hnd2 := List.nodup_cons.mp hnd1.2
    rcases List.mem_cons.mp hmem with he | hmem
    · have h1 : pf = pf' := congrArg Prod.fst he
      have h2 : cf = cf' := congrArg Prod.snd he
      subst h1
      subst h2
      have hpfcf : pf ≠ cf :=
        fun he2 => hnd1.1 (he2 ▸ List.mem_cons_self _ _)
      obtain ⟨p, c, hp, hc, hstep⟩ :=
        maskStepFrames_findRep_main sq at2 st pf cf hpfcf hcf hpf
      have hcf_rest : cf ∉ rest := hnd2.1
      have hpf_rest : pf ∉ rest :=
        fun hm => hnd1.1 (List.mem_cons_of_mem _ hm)
      refine ⟨p, c, ?_, hc, ?_⟩
      · show findRep pf cid
          (maskLoop sq at2 (maskStepFrames sq at2 st pf cf) (cf :: rest)) =
            some p
        rw [maskLoop_findRep_pres sq at2 (cf :: rest) _ pf cid hpf_rest,
          maskStepFrames_findRep_pres sq at2 st pf cf hpfcf]
        exact hp
      · show findRep cf cid
          (maskLoop sq at2 (maskStepFrames sq at2 st pf cf) (cf :: rest)) =
            some (motionFields sq at2 p c)
        rw [maskLoop_findRep_pres sq at2 (cf :: rest) _ cf cid hcf_rest]
        exact hstep
    · have hcf_in : cf ∈ rest := (List.of_mem_zip hmem).2
      have hcf_ne : cf ≠ cf' := by
        intro he2
        exact hnd2.1 (he2 ▸ hcf_in)
      have hkeys : ∀ fr2, frameKeys (maskStepFrames sq at2 st pf' cf') fr2 =
          frameKeys st fr2 :=
        fun fr2 => frameKeys_eq_of_map_keyOf
          (maskStepFrames_keyOf sq at2 st pf' cf') fr2
      obtain ⟨p, c, hp, hc, hfin⟩ :=
        maskLoop_findRep_main sq at2 (cf' :: rest)
          (maskStepFrames sq at2 st pf' cf') hnd1.2 pf cf hmem cid
          (by rw [hkeys cf]; exact hcf) (by rw [hkeys pf]; exact hpf)
      refine ⟨p, c, hp, ?_, hfin⟩
      rw [maskStepFrames_findRep_pres sq at2 st pf' cf' hcf_ne] at hc
      exact hc

theorem motionFields_track_cell (sq : ℚ → ℚ) (at2 : ℚ → ℚ → ℚ)
    (p c : CellFeature) :
    (motionFields sq at2 p c).track_id = c.track_id ∧
    (motionFields sq at2 p c).cell_id = c.cell_id := by
  unfold motionFields
  cases c.centroid with
  | none => exact ⟨rfl, rfl⟩
  | some cc =>
    cases p.centroid with
    | none => exact ⟨rfl, rfl⟩
    | some pc =>
      cases p.delta_x with
      | none => exact ⟨rfl, rfl⟩
      | some pdx =>
        cases p.delta_y with
        | none => exact ⟨rfl, rfl⟩
        | some pdy => exact ⟨rfl, rfl⟩

theorem maskKeysFold_pred (sq : ℚ → ℚ) (at2 : ℚ → ℚ → ℚ) (pf cf : Int)
    (pks : List Int) (Q : CellFeature → Prop)
    (hQ : ∀ p c, Q c → Q (motionFields sq at2 p c)) :
    ∀ (ks : List Int) (st : List CellFeature), (∀ f ∈ st, Q f) →
      ∀ f ∈ maskKeysFold sq at2 pf cf pks ks st, Q f
  | [], _, h => h
  | k :: ks, st, h => by
    simp only [maskKeysFold]
    refine maskKeysFold_pred sq at2 pf cf pks Q hQ ks _ ?_
    unfold maskKeyStep
    by_cases hk : k ∈ pks
    · rw [if_pos hk]
      cases hfr : findRep pf k st with
      | none => exact h
      | some p =>
        intro f hf
        rcases updateRep_mem hf with hf | ⟨b, hb, rfl⟩
        · exact h f hf
        · exact hQ p b (h b hb)
    · rw [if_neg hk]
      exact h

theorem maskLoop_pred (sq : ℚ → ℚ) (at2 : ℚ → ℚ → ℚ)
    (Q : CellFeature → Prop)
    (hQ : ∀ p c, Q c → Q (motionFields sq at2 p c)) :
    ∀ (l : List Int) (st : List CellFeature), (∀ f ∈ st, Q f) →
      ∀ f ∈ maskLoop sq at2 st l, Q f
  | [], _, h => h
  | [_], _, h => h
  | pf :: cf :: rest, st, h => by
    simp only [maskLoop]
    exact maskLoop_pred sq at2 Q hQ (cf :: rest) _
      (maskKeysFold_pred sq at2 pf cf _ Q hQ _ st h)

theorem length_lt_of_two_mem {α : Type} {l : List α} {a b : α}
    (ha : a ∈ l) (hb : b ∈ l) (hne : a ≠ b) : 1 < l.length := by
  cases l with
  | nil => simp at ha
  | cons x t =>
    cases t with
    | nil =>
      rw [List.mem_singleton] at ha hb
      exact absurd (ha.trans hb.symm) hne
    | cons y u => simp

/-- A label repeated across two distinct frames makes `multi_frame_ids`
nonempty (the mask-label precondition passes). -/
theorem multi_frame_ids_ne_nil {F : List CellFeature}
    (h : ∃ f1 ∈ F, ∃ f2 ∈ F,
      f1.cell_id = f2.cell_id ∧ f1.frame_num ≠ f2.frame_num) :
    multi_frame_ids F ≠ [] := by
  rcases h with ⟨f1, h1, f2, h2, hcid, hfr⟩
  have hne : f1 ≠ f2 := fun he => hfr (he ▸ rfl)
  have hmem1 : f1 ∈ F.filter (fun f => decide (f.cell_id = f1.cell_id)) :=
    List.mem_filter.mpr ⟨h1, by simp⟩
  have hmem2 : f2 ∈ F.filter (fun f => decide (f.cell_id = f1.cell_id)) :=
    List.mem_filter.mpr ⟨h2, by simp [hcid]⟩
  have hlen : 1 < cellIdOccurrences F f1.cell_id :=
    length_lt_of_two_mem hmem1 hmem2 hne
  have : f1.cell_id ∈ multi_frame_ids F := by
    unfold multi_frame_ids
    refine List.mem_filter.mpr ⟨?_, by simpa using hlen⟩
    rw [mem_firstDedup]
    exact List.mem_map.mpr ⟨f1, h1, rfl⟩
  exact fun hnil => by rw [hnil] at this; simp at this

/-- Under the data-model invariant that `(frame_num, cell_id)` pairs are
distinct, a nonempty `multi_frame_ids` exhibits a label repeated across two
distinct frames. -/
theorem multi_frame_ids_repeat {F : List CellFeature}
    (hnd : (F.map keyOf).Nodup) (h : multi_frame_ids F ≠ []) :
    ∃ f1 ∈ F, ∃ f2 ∈ F,
      f1.cell_id = f2.cell_id ∧ f1.frame_num ≠ f2.frame_num := by
  rcases List.exists_mem_of_ne_nil _ h with ⟨cid, hcid⟩
  unfold multi_frame_ids at hcid
  have hlen : 1 < cellIdOccurrences F cid := by
    simpa using (List.mem_filter.mp hcid).2
  unfold cellIdOccurrences at hlen
  cases hl : F.filter (fun f => decide (f.cell_id = cid)) with
  | nil => rw [hl] at hlen; simp at hlen
  | cons a t =>
    cases t with
    | nil => rw [hl] at hlen; simp at hlen
    | cons b u =>
      have hsub : (a :: b :: u).Sublist F := hl ▸ List.filter_sublist F
      have hand : ((a :: b :: u).map keyOf).Nodup :=
        List.Nodup.sublist (List.Sublist.map keyOf hsub) hnd
      have hne : keyOf a ≠ keyOf b := by
        have := List.nodup_cons.mp hand
        intro he
        exact this.1 (by rw [List.map_cons]; exact he ▸ List.mem_cons_self _ _)
      have ha : a ∈ F ∧ a.cell_id = cid := by
        have : a ∈ F.filter (fun f => decide (f.cell_id = cid)) := by
          rw [hl]; exact List.mem_cons_self _ _
        have h2 := List.mem_filter.mp this
        exact ⟨h2.1, by simpa using h2.2⟩
      have hb : b ∈ F ∧ b.cell_id = cid := by
        have : b ∈ F.filter (fun f => decide (f.cell_id = cid)) := by
          rw [hl]
          exact List.mem_cons_of_mem _ (List.mem_cons_self _ _)
        have h2 := List.mem_filter.mp this
        exact ⟨h2.1, by simpa using h2.2⟩
      refine ⟨a, ha.1, b, hb.1, ha.2.trans hb.2.symm, ?_⟩
      intro he
      exact hne (by unfold keyOf; rw [he, ha.2.trans hb.2.symm])

theorem motionFields_fields (sq : ℚ → ℚ) (at2 : ℚ → ℚ → ℚ)
    (p c : CellFeature) (cc pc : ℚ × ℚ)
    (hcc : c.centroid = some cc) (hpc : p.centroid = some pc) :
    (motionFields sq at2 p c).delta_x = some (cc.2 - pc.2) ∧
    (motionFields sq at2 p c).delta_y = some (cc.1 - pc.1) ∧
    (motionFields sq at2 p c).displacement =
      some (sq ((cc.2 - pc.2) ^ 2 + (cc.1 - pc.1) ^ 2)) ∧
    (motionFields sq at2 p c).speed =
      (motionFields sq at2 p c).displacement ∧
    (∀ pdx pdy, p.delta_x = some pdx → p.delta_y = some pdy →
      (motionFields sq at2 p c).turning =
        some (at2 (cc.1 - pc.1) (cc.2 - pc.2) - at2 pdy pdx)) := by
  unfold motionFields
  refine ⟨?_, ?_, ?_, ?_, ?_⟩ <;>
    cases hdx : p.delta_x <;> cases hdy : p.delta_y <;>
      simp [hcc, hpc, hdx, hdy]

theorem maskSt0_keyOf : ∀ F : List CellFeature,
    (maskSt0 F).map keyOf = F.map keyOf
  | [] => rfl
  | f :: F => by
    have ih := maskSt0_keyOf F
    simp only [maskSt0, List.map_cons] at ih ⊢
    rw [ih]
    rfl

/-- Claim C4: for every non-empty feature set, when at least one `cell_label`
occurs in more than one frame, `run_tracking_from_mask_labels` completes with
`track_id := cell_label` on every observation and, for every consecutive
frame pair and every label present in both frames, writes the motion block of
the current dict entry from the previous (already final) dict entry — same
formulas as the FrameLinker; otherwise (no repeated label, under the
data-model invariant that `(frame_num, cell_id)` is unique) it returns the
explicit error dict and writes nothing. -/
theorem run_tracking_from_mask_labels_spec (sq : ℚ → ℚ) (at2 : ℚ → ℚ → ℚ)
    (features0 extracted : List CellFeature) (hne : features0 ≠ []) :
    ((∃ f1 ∈ features0, ∃ f2 ∈ features0,
        f1.cell_id = f2.cell_id ∧ f1.frame_num ≠ f2.frame_num) →
      run_tracking_from_mask_labels sq at2 features0 extracted =
        (TrackResult.maskCompleted
          (distinctTrackCount
            (maskLoop sq at2 (maskSt0 features0) (frameNums features0)))
          features0.length (frameNums features0).length,
         maskLoop sq at2 (maskSt0 features0) (frameNums features0)) ∧
      (∀ f ∈ maskLoop sq at2 (maskSt0 features0) (frameNums features0),
        f.track_id = some f.cell_id) ∧
      (∀ pf cf,
        (pf, cf) ∈ (frameNums features0).zip (frameNums features0).tail →
        ∀ cid, cid ∈ frameKeys features0 cf →
          cid ∈ frameKeys features0 pf →
        ∃ p c,
          findRep pf cid (maskLoop sq at2 (maskSt0 features0)
            (frameNums features0)) = some p ∧
          findRep cf cid (maskSt0 features0) = some c ∧
          findRep cf cid (maskLoop sq at2 (maskSt0 features0)
            (frameNums features0)) = some (motionFields sq at2 p c) ∧
          (∀ pc cc, p.centroid = some pc → c.centroid = some cc →
            (motionFields sq at2 p c).delta_x = some (cc.2 - pc.2) ∧
            (motionFields sq at2 p c).delta_y = some (cc.1 - pc.1) ∧
            (motionFields sq at2 p c).displacement =
              some (sq ((cc.2 - pc.2) ^ 2 + (cc.1 - pc.1) ^ 2)) ∧
            (motionFields sq at2 p c).speed =
              (motionFields sq at2 p c).displacement ∧
            (∀ pdx pdy, p.delta_x = some pdx → p.delta_y = some pdy →
              (motionFields sq at2 p c).turning =
                some (at2 (cc.1 - pc.1) (cc.2 - pc.2) - at2 pdy pdx))))) ∧
    ((features0.map keyOf).Nodup →
      (¬ ∃ f1 ∈ features0, ∃ f2 ∈ features0,
        f1.cell_id = f2.cell_id ∧ f1.frame_num ≠ f2.frame_num) →
      run_tracking_from_mask_labels sq at2 features0 extracted =
        (TrackResult.errNoTrackIds, features0)) := by
  have hemp : features0.isEmpty = false := List.isEmpty_eq_false.mpr hne
  constructor
  · intro hrep
    have hmul : (multi_frame_ids features0).isEmpty = false :=
      List.isEmpty_eq_false.mpr (multi_frame_ids_ne_nil hrep)
    refine ⟨?_, ?_, ?_⟩
    · simp only [run_tracking_from_mask_labels, hemp, Bool.false_eq_true,
        if_false, hmul]
    · exact maskLoop_pred sq at2 (fun f => f.track_id = some f.cell_id)
        (fun p c hc => by
          rcases motionFields_track_cell sq at2 p c with ⟨h1, h2⟩
          rw [h1, h2]
          exact hc)
        (frameNums features0) (maskSt0 features0)
        (by
          intro f hf
          rcases List.mem_map.mp hf with ⟨b, hb, rfl⟩
          rfl)
    · intro pf cf hzip cid hcf hpf
      have hkeys : ∀ fr2, frameKeys (maskSt0 features0) fr2 =
          frameKeys features0 fr2 :=
        fun fr2 => frameKeys_eq_of_map_keyOf (maskSt0_keyOf features0) fr2
      obtain ⟨p, c, hp, hc, hfin⟩ :=
        maskLoop_findRep_main sq at2 (frameNums features0)
          (maskSt0 features0) (frameNums_nodup features0) pf cf hzip cid
          (by rw [hkeys cf]; exact hcf) (by rw [hkeys pf]; exact hpf)
      exact ⟨p, c, hp, hc, hfin,
        fun pc cc hpcen hccen =>
          motionFields_fields sq at2 p c cc pc hccen hpcen⟩
  · intro hnd hnorep
    have hmul : multi_frame_ids features0 = [] := by
      by_contra hmul
      exact hnorep (multi_frame_ids_repeat hnd hmul)
    simp only [run_tracking_from_mask_labels, hemp, Bool.false_eq_true,
      if_false, hmul, List.isEmpty_nil, if_true]

/-- Claim C4 witness: the positive branch at a concrete two-frame store whose
label `7` persists across both frames. -/
theorem run_tracking_from_mask_labels_spec_witness :
    run_tracking_from_mask_labels sqId atZero
        [mkObs 1 0 7 0 0, mkObs 2 1 7 3 4] [] =
      (TrackResult.maskCompleted
        (distinctTrackCount
          (maskLoop sqId atZero
            (maskSt0 [mkObs 1 0 7 0 0, mkObs 2 1 7 3 4])
            (frameNums [mkObs 1 0 7 0 0, mkObs 2 1 7 3 4])))
        ([mkObs 1 0 7 0 0, mkObs 2 1 7 3 4] : List CellFeature).length
        (frameNums [mkObs 1 0 7 0 0, mkObs 2 1 7 3 4]).length,
       maskLoop sqId atZero (maskSt0 [mkObs 1 0 7 0 0, mkObs 2 1 7 3 4])
         (frameNums [mkObs 1 0 7 0 0, mkObs 2 1 7 3 4])) :=
  ((run_tracking_from_mask_labels_spec sqId atZero
      [mkObs 1 0 7 0 0, mkObs 2 1 7 3 4] [] (by simp)).1
    ⟨mkObs 1 0 7 0 0, by simp, mkObs 2 1 7 3 4, by simp,
      rfl, by decide⟩).1
